import Mathlib

/-!
Verification development for the email sorting API: a shallow embedding of the
ingestion and categorization pipeline (DAO layer, content extractor, Gmail
reconciler, ingestion orchestrator) together with theorems settling the
specification claims.

Modelling conventions:
* Database tables (`raw_emails`, `processed_emails`, `categories`,
  `gmail_accounts`, and the legacy `public.emails` table) are lists of rows.
* Supabase `.eq` / `.in_` filters become `List.filter`; `.order(col, desc)`
  becomes a stable descending sort (Python's and PostgreSQL-with-stable-input
  ordering); `.upsert(on_conflict)` updates the row with an equal conflict key
  when one exists and appends otherwise.
* Timestamps are `Nat` (the DAO normalizes every stored `received_at` to a
  single timezone-aware ISO representation, whose lexicographic order is the
  chronological order).
* Python `raise` is modelled by an error component: mutating operations return
  the resulting state together with `Option String` (`some` = the exception
  message), so that mutations already executed before a raise stay visible.
-/

/-- Stable insertion of `a` into a descending-sorted list: `a` goes in front of
the first element whose key is strictly smaller, hence after every earlier
element with an equal key. -/
def insIntoDesc {α : Type} (key : α → Nat) (a : α) : List α → List α
  | [] => [a]
  | b :: bs => if key b < key a then a :: b :: bs else b :: insIntoDesc key a bs

/-- Stable descending sort by a `Nat` key. This models Python's
`list.sort(key=…, reverse=True)` (Timsort), which is documented to be stable
also with `reverse=True`; a stable sort is uniquely determined by its key, so
insertion sort is an exact model. -/
def sortDescBy {α : Type} (key : α → Nat) (l : List α) : List α :=
  l.foldl (fun acc a => insIntoDesc key a acc) []

theorem insIntoDesc_perm {α : Type} (key : α → Nat) (a : α) (l : List α) :
    List.Perm (insIntoDesc key a l) (a :: l) := by
  induction l with
  | nil => simp [insIntoDesc]
  | cons b bs ih =>
    by_cases h : key b < key a
    · simp [insIntoDesc, h]
    · simp only [insIntoDesc, if_neg h]
      exact (ih.cons b).trans (List.Perm.swap a b bs)

theorem sortDescBy_go_perm {α : Type} (key : α → Nat) (l acc : List α) :
    List.Perm (l.foldl (fun acc a => insIntoDesc key a acc) acc) (acc ++ l) := by
  induction l generalizing acc with
  | nil => simp
  | cons a as ih =>
    simp only [List.foldl_cons]
    refine (ih (insIntoDesc key a acc)).trans ?_
    have h1 : List.Perm (insIntoDesc key a acc ++ as) ((a :: acc) ++ as) :=
      (insIntoDesc_perm key a acc).append_right as
    refine h1.trans ?_
    simp only [List.cons_append]
    exact (@List.perm_middle _ a acc as).symm

theorem sortDescBy_perm {α : Type} (key : α → Nat) (l : List α) :
    List.Perm (sortDescBy key l) l := by
  simpa [sortDescBy] using sortDescBy_go_perm key l []

theorem mem_insIntoDesc {α : Type} (key : α → Nat) (a x : α) (l : List α) :
    x ∈ insIntoDesc key a l ↔ x = a ∨ x ∈ l := by
  constructor
  · intro hx
    have := (insIntoDesc_perm key a l).mem_iff.mp hx
    simpa using this
  · intro hx
    apply (insIntoDesc_perm key a l).mem_iff.mpr
    simpa using hx

theorem mem_sortDescBy {α : Type} (key : α → Nat) (x : α) (l : List α) :
    x ∈ sortDescBy key l ↔ x ∈ l :=
  (sortDescBy_perm key l).mem_iff

/-- Descending-sortedness: every element's key dominates the keys after it. -/
abbrev DescSorted {α : Type} (key : α → Nat) (l : List α) : Prop :=
  l.Pairwise (fun x y => key y ≤ key x)

theorem insIntoDesc_sorted {α : Type} (key : α → Nat) (a : α) (l : List α)
    (h : DescSorted key l) : DescSorted key (insIntoDesc key a l) := by
  induction l with
  | nil => simp [insIntoDesc, DescSorted]
  | cons b bs ih =>
    rcases List.pairwise_cons.mp h with ⟨hb, hbs⟩
    by_cases hk : key b < key a
    · simp only [insIntoDesc, if_pos hk]
      refine List.Pairwise.cons ?_ (List.Pairwise.cons hb hbs)
      intro z hz
      rcases List.mem_cons.mp hz with hz | hz
      · subst hz; exact Nat.le_of_lt hk
      · exact Nat.le_of_lt (Nat.lt_of_le_of_lt (hb z hz) hk)
    · simp only [insIntoDesc, if_neg hk]
      refine List.Pairwise.cons ?_ (ih hbs)
      intro z hz
      rcases (mem_insIntoDesc key a z bs).mp hz with hz | hz
      · subst hz; exact Nat.le_of_not_lt hk
      · exact hb z hz

theorem sortDescBy_go_sorted {α : Type} (key : α → Nat) (l acc : List α)
    (h : DescSorted key acc) :
    DescSorted key (l.foldl (fun acc a => insIntoDesc key a acc) acc) := by
  induction l generalizing acc with
  | nil => simpa using h
  | cons a as ih =>
    simp only [List.foldl_cons]
    exact ih (insIntoDesc key a acc) (insIntoDesc_sorted key a acc h)

theorem sortDescBy_sorted {α : Type} (key : α → Nat) (l : List α) :
    DescSorted key (sortDescBy key l) :=
  sortDescBy_go_sorted key l [] (by simp [DescSorted])

theorem insIntoDesc_filter_key {α : Type} (key : α → Nat) (a : α) (l : List α)
    (hsorted : DescSorted key l) (k : Nat) :
    (insIntoDesc key a l).filter (fun x => key x == k) =
      if key a = k then l.filter (fun x => key x == k) ++ [a]
      else l.filter (fun x => key x == k) := by
  induction l with
  | nil =>
    by_cases h : key a = k <;> simp [insIntoDesc, List.filter_cons, h]
  | cons b bs ih =>
    rcases List.pairwise_cons.mp hsorted with ⟨hb, hbs⟩
    by_cases hba : key b < key a
    · -- `a` is placed first; every element of `b :: bs` has key < key a.
      rw [insIntoDesc, if_pos hba]
      by_cases hak : key a = k
      · -- no element of `b :: bs` has key `k`, so both filters collapse
        have hfilt : (b :: bs).filter (fun x => key x == k) = [] := by
          apply List.filter_eq_nil_iff.mpr
          intro x hx
          simp only [beq_iff_eq]
          rcases List.mem_cons.mp hx with hx | hx
          · subst hx; omega
          · have := hb x hx; omega
        simp [List.filter_cons, hak, hfilt]
      · simp [List.filter_cons, hak]
    · -- `a` is inserted in the tail
      rw [insIntoDesc, if_neg hba]
      by_cases hbk : key b = k
      · by_cases hak : key a = k <;>
          simp [List.filter_cons, hbk, ih hbs, hak]
      · by_cases hak : key a = k <;>
          simp [List.filter_cons, hbk, ih hbs, hak]

theorem sortDescBy_go_filter_key {α : Type} (key : α → Nat) (l acc : List α)
    (hacc : DescSorted key acc) (k : Nat) :
    (l.foldl (fun acc a => insIntoDesc key a acc) acc).filter (fun x => key x == k) =
      acc.filter (fun x => key x == k) ++ l.filter (fun x => key x == k) := by
  induction l generalizing acc with
  | nil => simp
  | cons a as ih =>
    simp only [List.foldl_cons]
    rw [ih (insIntoDesc key a acc) (insIntoDesc_sorted key a acc hacc)]
    rw [insIntoDesc_filter_key key a acc hacc k]
    by_cases hak : key a = k
    · simp [List.filter_cons, hak]
    · simp [List.filter_cons, hak]

/-- Stability of the descending sort: for each key value, the elements with
that key appear in the sorted output in their original relative order. -/
theorem sortDescBy_stable {α : Type} (key : α → Nat) (l : List α) (k : Nat) :
    (sortDescBy key l).filter (fun x => key x == k) =
      l.filter (fun x => key x == k) := by
  simpa [sortDescBy, DescSorted] using
    sortDescBy_go_filter_key key l [] (by simp [DescSorted]) k

theorem sortDescBy_head_max {α : Type} (key : α → Nat) (l : List α) (h : α)
    (t : List α) (hht : sortDescBy key l = h :: t) :
    h ∈ l ∧ ∀ x ∈ l, key x ≤ key h := by
  constructor
  · exact (mem_sortDescBy key h l).mp (by rw [hht]; exact List.mem_cons_self h t)
  · intro x hx
    have hx' : x ∈ h :: t := by
      rw [← hht]; exact (mem_sortDescBy key x l).mpr hx
    rcases List.mem_cons.mp hx' with hx' | hx'
    · subst hx'; exact Nat.le_refl _
    · have hs := sortDescBy_sorted key l
      rw [hht] at hs
      exact (List.pairwise_cons.mp hs).1 x hx'

theorem sortDescBy_countP {α : Type} (key : α → Nat) (l : List α) (p : α → Bool) :
    (sortDescBy key l).countP p = l.countP p :=
  (sortDescBy_perm key l).countP_eq p

theorem sortDescBy_all {α : Type} (key : α → Nat) (l : List α) (p : α → Bool) :
    (sortDescBy key l).all p = l.all p := by
  by_cases h : l.all p = true
  · rw [h]
    rw [List.all_eq_true] at h ⊢
    intro x hx
    exact h x ((mem_sortDescBy key x l).mp hx)
  · have h' : ¬ (sortDescBy key l).all p = true := by
      intro hc
      apply h
      rw [List.all_eq_true] at hc ⊢
      intro x hx
      exact hc x ((mem_sortDescBy key x l).mpr hx)
    simp only [Bool.not_eq_true] at h h'
    rw [h, h']

/-! ## Data model (src/app/models, table shapes used by src/app/dao) -/

/-- A row of the `raw_emails` table (src/app/dao/email_dao.py, insert_emails).
The `unsubscribe_link` column is carried by the source but never read by any
operation under verification, so it is omitted from the row model. -/
structure RawEmail where
  user_id : String
  gmail_message_id : String
  thread_id : String
  subject : String
  body : String
  received_at : Nat
  archived : Bool
  google_sub : String
deriving DecidableEq, Repr

/-- A row of the `processed_emails` table
(src/app/dao/email_dao.py, save_email_categories). -/
structure ProcessedEmail where
  user_id : String
  gmail_message_id : String
  thread_id : String
  subject : String
  ai_summary : String
  category_id : Nat
  unsubscribed : Bool
  received_at : Nat
  archived : Bool
  google_sub : String
deriving DecidableEq, Repr

/-- A row of the `categories` table (src/app/dao/category_dao.py). -/
structure Category where
  user_id : String
  category_id : Nat
  name : String
  description : Option String
deriving DecidableEq, Repr

/-- A row of the `gmail_accounts` table (src/app/domain/email_service.py,
ensure_primary_account_stored / poll_all_gmail_accounts). -/
structure GmailAccount where
  user_id : String
  google_sub : String
  email : String
  access_token : String
  refresh_token : String
deriving DecidableEq, Repr

/-- A row of the legacy `public.emails` table, shaped after the
`Email` pydantic model (src/app/models/email.py): it carries no user id. -/
structure LegacyEmail where
  id : String
  subject : String
  sender : String
  recipient : String
  content : String
  received_at : Nat
  category : Option String
deriving DecidableEq, Repr

/-- The database state: one list of rows per table. -/
structure DB where
  raw_emails : List RawEmail
  processed_emails : List ProcessedEmail
  categories : List Category
  gmail_accounts : List GmailAccount
  emails : List LegacyEmail
deriving DecidableEq, Repr

/-- The dict assembled by `EmailService.poll_gmail` for one fetched message
(src/app/domain/email_service.py lines 291-300), before the DAO adds the
user id. `received_at` is modelled already normalized (parse_email_date). -/
structure EmailData where
  gmail_message_id : String
  thread_id : String
  subject : String
  body : String
  received_at : Nat
  archived : Bool
  google_sub : String
deriving DecidableEq, Repr

/-- The categorization dict after `categorize_email` has attached the message
id: the fields `save_email_categories` reads (confidence is returned by the
classifier but never persisted, so it is omitted). -/
structure Categorization where
  gmail_message_id : String
  category_id : Nat
  summary : String
deriving DecidableEq, Repr

/-- Supabase `upsert(..., on_conflict=key)` for one row: update the row with
an equal conflict key in place when one exists, append otherwise. -/
def upsertRow {ρ κ : Type} [DecidableEq κ] (key : ρ → κ) (tbl : List ρ)
    (row : ρ) : List ρ :=
  if tbl.any (fun r => decide (key r = key row)) then
    tbl.map (fun r => if key r = key row then row else r)
  else tbl ++ [row]

/-- The raw-email conflict key `user_id,gmail_message_id,thread_id,google_sub`
(src/app/dao/email_dao.py line 83). -/
def rawKey (r : RawEmail) : String × String × String × String :=
  (r.user_id, r.gmail_message_id, r.thread_id, r.google_sub)

/-- The processed-email conflict key
`user_id,gmail_message_id,thread_id,google_sub`
(src/app/dao/email_dao.py line 326). -/
def procKey (p : ProcessedEmail) : String × String × String × String :=
  (p.user_id, p.gmail_message_id, p.thread_id, p.google_sub)

/-! ## EmailDAO (src/app/dao/email_dao.py)

Mutating operations return the post-operation state together with
`Option String`: `some msg` models the Python `raise`, with every mutation
issued before the raise already applied to the state. -/

namespace EmailDAO

/-- `EmailDAO.insert_emails`: per-row upsert of the batch into `raw_emails`
under the conflict key, stamping the caller's user id on every row; raises
when the upsert returns no data, which happens exactly on an empty batch. -/
def insert_emails (user_id : String) (emails : List EmailData) (db : DB) :
    DB × Option String :=
  let rows := emails.map (fun e =>
    { user_id := user_id
      gmail_message_id := e.gmail_message_id
      thread_id := e.thread_id
      subject := e.subject
      body := e.body
      received_at := e.received_at
      archived := e.archived
      google_sub := e.google_sub : RawEmail })
  if emails.isEmpty then (db, some "Failed to insert emails")
  else ({ db with raw_emails := rows.foldl (upsertRow rawKey) db.raw_emails },
        none)

/-- `EmailDAO.get_all_emails`: the user's `processed_emails` rows, newest
first. -/
def get_all_emails (user_id : String) (db : DB) : List ProcessedEmail :=
  sortDescBy (fun p => p.received_at)
    (db.processed_emails.filter (fun p => p.user_id == user_id))

/-- `EmailDAO.get_all_raw_emails`: the user's `raw_emails` rows, newest
first. -/
def get_all_raw_emails (user_id : String) (db : DB) : List RawEmail :=
  sortDescBy (fun r => r.received_at)
    (db.raw_emails.filter (fun r => r.user_id == user_id))

/-- `EmailDAO.get_emails_by_ids`: the user's raw rows whose message id is in
the given list. -/
def get_emails_by_ids (user_id : String) (gmail_message_ids : List String)
    (db : DB) : List RawEmail :=
  db.raw_emails.filter
    (fun r => r.user_id == user_id &&
      gmail_message_ids.contains r.gmail_message_id)

/-- `EmailDAO.get_all_categories`: the user's category rows. -/
def get_all_categories (user_id : String) (db : DB) : List Category :=
  db.categories.filter (fun c => c.user_id == user_id)

/-- The predefined SQL text `GET_EMAILS_BY_CATEGORY` run over `public.emails`:
`SELECT * FROM public.emails WHERE category = :category` — the predicate
mentions only the category column. -/
def run_GET_EMAILS_BY_CATEGORY (tbl : List LegacyEmail) (category : String) :
    List LegacyEmail :=
  tbl.filter (fun e => e.category == some category)

/-- `EmailDAO.get_emails_by_category`: executes `GET_EMAILS_BY_CATEGORY`
with the category parameter; no user id is taken or applied. -/
def get_emails_by_category (db : DB) (category : String) : List LegacyEmail :=
  run_GET_EMAILS_BY_CATEGORY db.emails category

/-- `EmailDAO.save_email_categories`: look the raw row up by message id for
the user (`[0]` raises on an empty result), denormalize its fields into a
`processed_emails` row, and upsert it under the conflict key. -/
def save_email_categories (user_id : String) (cat : Categorization) (db : DB) :
    DB × Option String :=
  match (get_emails_by_ids user_id [cat.gmail_message_id] db).head? with
  | none => (db, some "Error saving email categorization: list index out of range")
  | some e =>
      let row : ProcessedEmail :=
        { user_id := user_id
          gmail_message_id := cat.gmail_message_id
          thread_id := e.thread_id
          subject := e.subject
          ai_summary := cat.summary
          category_id := cat.category_id
          unsubscribed := false
          received_at := e.received_at
          archived := e.archived
          google_sub := e.google_sub }
      ({ db with processed_emails := upsertRow procKey db.processed_emails row },
       none)

/-- `EmailDAO.delete_emails`: delete the user's raw rows with the given
message ids; raises exactly when no row matched (empty delete result). -/
def delete_emails (user_id : String) (gmail_message_ids : List String)
    (db : DB) : DB × Option String :=
  let hit := fun (r : RawEmail) =>
    r.user_id == user_id && gmail_message_ids.contains r.gmail_message_id
  let deleted := db.raw_emails.filter hit
  ({ db with raw_emails := db.raw_emails.filter (fun r => !(hit r)) },
   if deleted.isEmpty then some "Failed to delete emails from raw_emails"
   else none)

/-- `EmailDAO.delete_processed_emails`: delete the user's processed rows with
the given message ids; raises exactly when no row matched. -/
def delete_processed_emails (user_id : String) (gmail_message_ids : List String)
    (db : DB) : DB × Option String :=
  let hit := fun (p : ProcessedEmail) =>
    p.user_id == user_id && gmail_message_ids.contains p.gmail_message_id
  let deleted := db.processed_emails.filter hit
  ({ db with processed_emails := db.processed_emails.filter (fun p => !(hit p)) },
   if deleted.isEmpty then some "Failed to delete emails from processed_emails"
   else none)

/-- `EmailDAO.mark_as_unsubscribed`: set the flag on the user's processed rows
with the given message id; raises when no row matched. -/
def mark_as_unsubscribed (user_id : String) (gmail_message_id : String)
    (db : DB) : DB × Option String :=
  let hit := fun (p : ProcessedEmail) =>
    p.user_id == user_id && p.gmail_message_id == gmail_message_id
  let touched := db.processed_emails.filter hit
  ({ db with processed_emails :=
      db.processed_emails.map (fun p => if hit p then { p with unsubscribed := true } else p) },
   if touched.isEmpty then some "Failed to mark email as unsubscribed"
   else none)

/-- `EmailDAO.mark_as_archived`: best-effort archived-flag update on both
tables for the user's rows with the given message id; empty matches only
print a warning, so the operation never raises. -/
def mark_as_archived (user_id : String) (gmail_message_id : String)
    (db : DB) : DB :=
  { db with
    raw_emails := db.raw_emails.map (fun r =>
      if r.user_id == user_id && r.gmail_message_id == gmail_message_id then
        { r with archived := true } else r)
    processed_emails := db.processed_emails.map (fun p =>
      if p.user_id == user_id && p.gmail_message_id == gmail_message_id then
        { p with archived := true } else p) }

/-- `EmailDAO.get_gmail_account`: the first `gmail_accounts` row for
(user id, google_sub), if any. -/
def get_gmail_account (user_id : String) (google_sub : String) (db : DB) :
    Option GmailAccount :=
  (db.gmail_accounts.filter
    (fun a => a.user_id == user_id && a.google_sub == google_sub)).head?

/-- The message ids of the user's processed rows, as collected by
`get_unprocessed_emails` (`processed_ids`). -/
def processedIds (user_id : String) (db : DB) : List String :=
  (db.processed_emails.filter (fun p => p.user_id == user_id)).map
    (fun p => p.gmail_message_id)

/-- `EmailDAO.get_unprocessed_emails`: the user's raw rows, newest first,
minus those whose `gmail_message_id` occurs among the user's processed rows.
The comparison is on the message id alone, not the full conflict key. -/
def get_unprocessed_emails (user_id : String) (db : DB) : List RawEmail :=
  (sortDescBy (fun r => r.received_at)
      (db.raw_emails.filter (fun r => r.user_id == user_id))).filter
    (fun r => !((processedIds user_id db).contains r.gmail_message_id))

end EmailDAO

/-! ## CategoryDAO (src/app/dao/category_dao.py) -/

namespace CategoryDAO

/-- `CategoryDAO.create_category`: read the user's largest `category_id`
(order desc, limit 1), assign that plus one — or 1 when the user has no
categories — and insert the new row. The insert of a fresh row always
returns data, so the operation does not raise. -/
def create_category (user_id : String) (name : String)
    (description : Option String) (db : DB) : DB × Category :=
  let ids := sortDescBy (fun i => i)
    ((db.categories.filter (fun c => c.user_id == user_id)).map
      (fun c => c.category_id))
  let next_category_id := match ids.head? with
    | none => 1
    | some m => m + 1
  let cat : Category :=
    { user_id := user_id, category_id := next_category_id
      name := name, description := description }
  ({ db with categories := db.categories ++ [cat] }, cat)

end CategoryDAO

/-! ## Content extractor (src/app/domain/email_service.py, extract_email_body)

A Gmail payload is a tree of parts. A part either lacks the `parts` key
(a leaf) or carries one (a container, possibly with an empty child list);
either kind may carry inline `body.data` content and a `mimeType` (absent
modelled as `""`, matching `part.get("mimeType", "")`). `decodeData` models
the Python expression
`base64.urlsafe_b64decode(data.encode("utf-8")).decode("utf-8")` at the
interface of the standard library: `none` models the raise on malformed
base64 padding or invalid UTF-8. -/

inductive GPart where
  | leaf : Option String → String → GPart
  | container : Option String → String → List GPart → GPart

/-- The `body.data` field of a part, when both keys are present. -/
def GPart.body_data : GPart → Option String
  | .leaf d _ => d
  | .container d _ _ => d

/-- The `mimeType` field of a part (`""` when absent). -/
def GPart.mimeType : GPart → String
  | .leaf _ m => m
  | .container _ m _ => m

/-- Whether the part carries a `parts` key. -/
def GPart.isContainer : GPart → Bool
  | .leaf _ _ => false
  | .container _ _ _ => true

/-- Value of one base64url alphabet character; standard-alphabet `+` and `/`
stay valid after the urlsafe translation. -/
def b64Val (c : Char) : Option Nat :=
  if 'A' ≤ c ∧ c ≤ 'Z' then some (c.toNat - 65)
  else if 'a' ≤ c ∧ c ≤ 'z' then some (c.toNat - 97 + 26)
  else if '0' ≤ c ∧ c ≤ '9' then some (c.toNat - 48 + 52)
  else if c = '-' ∨ c = '+' then some 62
  else if c = '_' ∨ c = '/' then some 63
  else none

/-- Reassemble bytes from a run of 6-bit values; a trailing run of length 1
cannot occur in well-padded input and is rejected. -/
def b64Bytes : List Nat → Option (List Nat)
  | [] => some []
  | [_] => none
  | [a, b] => some [a * 4 + b / 16]
  | [a, b, c] => some [a * 4 + b / 16, (b % 16) * 16 + c / 4]
  | a :: b :: c :: d :: rest => do
      let tail ← b64Bytes rest
      pure ([a * 4 + b / 16, (b % 16) * 16 + c / 4, (c % 4) * 64 + d] ++ tail)

/-- `base64.urlsafe_b64decode` with its default leniency: characters outside
the alphabet are discarded, the remaining length (padding included) must be a
multiple of 4, and `=` only pads. -/
def urlsafe_b64decode (s : String) : Option (List Nat) :=
  let cs := s.data.filter (fun c => (b64Val c).isSome || c == '=')
  if cs.length % 4 ≠ 0 then none
  else
    match (cs.filter (fun c => c != '=')).mapM b64Val with
    | none => none
    | some vals => b64Bytes vals

/-- UTF-8 decoding of a byte list (`bytes.decode("utf-8")`); `none` models
`UnicodeDecodeError`. -/
def utf8Decode : List Nat → Option (List Char)
  | [] => some []
  | b :: rest =>
    if b < 128 then
      (utf8Decode rest).map (fun cs => Char.ofNat b :: cs)
    else if 194 ≤ b ∧ b ≤ 223 then
      match rest with
      | c1 :: rest' =>
        if 128 ≤ c1 ∧ c1 ≤ 191 then
          (utf8Decode rest').map
            (fun cs => Char.ofNat ((b - 192) * 64 + (c1 - 128)) :: cs)
        else none
      | [] => none
    else if 224 ≤ b ∧ b ≤ 239 then
      match rest with
      | c1 :: c2 :: rest' =>
        if 128 ≤ c1 ∧ c1 ≤ 191 ∧ 128 ≤ c2 ∧ c2 ≤ 191 then
          let code := (b - 224) * 4096 + (c1 - 128) * 64 + (c2 - 128)
          if 2048 ≤ code ∧ ¬(55296 ≤ code ∧ code ≤ 57343) then
            (utf8Decode rest').map (fun cs => Char.ofNat code :: cs)
          else none
        else none
      | _ => none
    else if 240 ≤ b ∧ b ≤ 244 then
      match rest with
      | c1 :: c2 :: c3 :: rest' =>
        if 128 ≤ c1 ∧ c1 ≤ 191 ∧ 128 ≤ c2 ∧ c2 ≤ 191 ∧ 128 ≤ c3 ∧ c3 ≤ 191 then
          let code := (b - 240) * 262144 + (c1 - 128) * 4096 +
            (c2 - 128) * 64 + (c3 - 128)
          if 65536 ≤ code ∧ code ≤ 1114111 then
            (utf8Decode rest').map (fun cs => Char.ofNat code :: cs)
          else none
        else none
      | _ => none
    else none

/-- The full decode step applied to a `body.data` value. -/
def decodeData (s : String) : Option String :=
  match urlsafe_b64decode s with
  | none => none
  | some bytes =>
    match utf8Decode bytes with
    | none => none
    | some cs => some (String.mk cs)

/-- Decode as an `Except`, the shape the extractor needs: a failed decode is
an uncaught exception. -/
def decodeE (s : String) : Except String String :=
  match decodeData s with
  | some r => .ok r
  | none => .error "decode error"

mutual

/-- `EmailService.extract_email_body` on a truthy payload dict: own
`body.data` wins; otherwise a container's children are scanned; otherwise the
fixed fallback string is returned. -/
def extractBodyP : GPart → Except String String
  | .leaf d _ =>
    match d with
    | some s => decodeE s
    | none => .ok "No readable content"
  | .container d _ ps =>
    match d with
    | some s => decodeE s
    | none => extractScan ps none none

/-- The child scan of `extract_email_body` (first pass plus the trailing
HTML-over-plain-text preference): html/plain leaves with data are recorded
(the later one winning), a child carrying a `parts` key is recursed into and
its result returned at once when non-empty (Python truthiness). -/
def extractScan : List GPart → Option String → Option String →
    Except String String
  | [], html?, text? =>
    (match html? with
     | some d => decodeE d
     | none =>
       match text? with
       | some d => decodeE d
       | none => .ok "No readable content")
  | p :: rest, html?, text? =>
    if p.mimeType == "text/html" && p.body_data.isSome then
      extractScan rest p.body_data text?
    else if p.mimeType == "text/plain" && p.body_data.isSome then
      extractScan rest html? p.body_data
    else
      match p with
      | .container _ _ _ => do
          let nested ← extractBodyP p
          if nested ≠ "" then pure nested else extractScan rest html? text?
      | .leaf _ _ => extractScan rest html? text?

end

/-- `EmailService.extract_email_body` including the falsy-payload guard
(`if not payload: return ""`): `none` models an absent or empty payload dict.
Recursive calls always receive a part that carried a `parts` key, hence a
truthy dict, so only the top level needs the guard. -/
def extract_email_body : Option GPart → Except String String
  | none => .ok ""
  | some p => extractBodyP p

/-! ## Mailbox reconciler and orchestrator (src/app/domain/email_service.py,
src/app/api/email_routes.py)

The remote mailbox is modelled per account as a list of remote messages,
newest first; `users().messages().list(maxResults=2)` therefore returns the
first two entries. Remote mutations (archive, trash) act on the remote
mailbox only and are modelled as succeeding; their local effect
(`mark_as_archived`) is applied as in the source. Messages are modelled with
a parseable, already-normalized Date header (`parse_email_date`). -/

/-- One remote Gmail message as fetched by
`users().messages().get(id=...)`. -/
structure RemoteMsg where
  id : String
  threadId : String
  headers : List (String × String)
  date : Nat
  payload : Option GPart

/-- Case-insensitive header lookup
(`next((h.value for h in headers if h.name.lower() == name), default)`). -/
def headerValue (headers : List (String × String)) (name : String) :
    Option String :=
  (headers.find? (fun h => h.fst.toLower == name)).map (fun h => h.snd)

/-- The email dict `poll_gmail` assembles for one fetched message
(subject defaults to `No Subject`, an empty extracted body becomes
`No content`); body extraction may raise. -/
def buildEmailData (google_sub : String) (m : RemoteMsg) :
    Except String EmailData := do
  let body ← extract_email_body m.payload
  pure
    { gmail_message_id := m.id
      thread_id := m.threadId
      subject := (headerValue m.headers "subject").getD "No Subject"
      body := if body == "" then "No content" else body
      received_at := m.date
      archived := false
      google_sub := google_sub }

/-- The archive pass of `poll_gmail`: for each stored message, the remote
label-removal succeeds and the archived flag is set in storage. -/
def archiveStored (user_id : String) (emails : List EmailData) (db : DB) :
    DB :=
  emails.foldl
    (fun d e => EmailDAO.mark_as_archived user_id e.gmail_message_id d) db

/-- `EmailService.poll_gmail`: list the `maxResults=2` most recent remote
messages, convert each, upsert the non-empty batch, archive it, and return
the Repository's full unprocessed delta for the user (not the batch).
Failures leave already-issued mutations in place and surface as the error
component. -/
def poll_gmail (remote : List RemoteMsg) (user_id google_sub : String)
    (db : DB) : DB × Except String (List RawEmail) :=
  match (remote.take 2).mapM (buildEmailData google_sub) with
  | .error e => (db, .error e)
  | .ok emails_to_store =>
    if emails_to_store.isEmpty then
      (db, .ok (EmailDAO.get_unprocessed_emails user_id db))
    else
      match EmailDAO.insert_emails user_id emails_to_store db with
      | (db1, some e) => (db1, .error e)
      | (db1, none) =>
        let db2 := archiveStored user_id emails_to_store db1
        (db2, .ok (EmailDAO.get_unprocessed_emails user_id db2))

/-- Token resolution of `poll_all_gmail_accounts`: the `primary_account`
sentinel substitutes the caller-supplied provider token (the account is
skipped with a warning when none is supplied); otherwise the stored pair is
used. -/
def tokenFor (account : GmailAccount) (provider_token : Option String) :
    Option String :=
  if account.refresh_token == "primary_account" then provider_token
  else some account.access_token

/-- One iteration of the account loop of `poll_all_gmail_accounts`: resolve
the token (skipping the account when the primary sentinel has no live
token), poll, and extend the accumulated message list; a failed poll is
logged and skipped, keeping its already-issued mutations. -/
def pollStep (user_id : String) (provider_token : Option String)
    (remotes : String → List RemoteMsg) (st : DB × List RawEmail)
    (account : GmailAccount) : DB × List RawEmail :=
  match tokenFor account provider_token with
  | none => st
  | some _ =>
    match poll_gmail (remotes account.google_sub) user_id
        account.google_sub st.1 with
    | (db1, .ok emails) => (db1, st.2 ++ emails)
    | (db1, .error _) => (db1, st.2)

/-- The concatenation of all accounts' returned messages, in account order,
before the final sort. -/
def pollConcat (user_id : String) (provider_token : Option String)
    (remotes : String → List RemoteMsg) (db : DB) : List RawEmail :=
  ((db.gmail_accounts.filter (fun a => a.user_id == user_id)).foldl
    (pollStep user_id provider_token remotes) (db, [])).2

/-- `EmailService.poll_all_gmail_accounts`: iterate the user's
`gmail_accounts` rows via `pollStep`, then sort the concatenated results by
`received_at` descending (Python's stable sort). `remotes` gives each
account's remote mailbox content, keyed by `google_sub`. -/
def poll_all_gmail_accounts (user_id : String)
    (provider_token : Option String) (remotes : String → List RemoteMsg)
    (db : DB) : DB × List RawEmail :=
  let accounts := db.gmail_accounts.filter (fun a => a.user_id == user_id)
  if accounts.isEmpty then (db, [])
  else
    let st := accounts.foldl (pollStep user_id provider_token remotes) (db, [])
    (st.1, sortDescBy (fun r => r.received_at) st.2)

/-- One classifier outcome before the message id is attached
(`categorize_email` returns category id, summary and a confidence that is
never persisted). -/
structure ClassOut where
  category_id : Nat
  summary : String
deriving DecidableEq, Repr

/-- The per-message classification loop of `process_emails_background`
(src/app/api/email_routes.py lines 163-177): classify, persist on success and
count it; any per-message failure — classification or persistence — is
logged and skipped. Returns the final state and the processed count. -/
def classifyLoop (classify : RawEmail → List Category → Except String ClassOut)
    (cats : List Category) (user_id : String) :
    List RawEmail → DB → DB × Nat
  | [], db => (db, 0)
  | e :: rest, db =>
    match classify e cats with
    | .error _ => classifyLoop classify cats user_id rest db
    | .ok r =>
      match EmailDAO.save_email_categories user_id
          { gmail_message_id := e.gmail_message_id
            category_id := r.category_id
            summary := r.summary } db with
      | (db1, some _) => classifyLoop classify cats user_id rest db1
      | (db1, none) =>
        let (db2, n) := classifyLoop classify cats user_id rest db1
        (db2, n + 1)

/-- `process_emails_background`: poll all accounts, stop early when the user
has no categories, then run the classification loop. The whole body is
wrapped in a `try`/`except` that only logs, so the task never raises. -/
def process_emails_background
    (classify : RawEmail → List Category → Except String ClassOut)
    (user_id : String) (provider_token : Option String)
    (remotes : String → List RemoteMsg) (db : DB) : DB × Nat :=
  let (db1, emails) := poll_all_gmail_accounts user_id provider_token remotes db
  let cats := EmailDAO.get_all_categories user_id db1
  if cats.isEmpty then (db1, 0)
  else classifyLoop classify cats user_id emails db1

/-- `EmailService.delete_emails` restricted to its local-database effect: the
per-account Gmail trash mutations touch only the remote mailbox and every
failure there is logged and skipped, after which the raw rows and then the
processed rows are deleted; the first raising deletion aborts the rest while
keeping mutations already executed. -/
def service_delete_emails (user_id : String) (gmail_message_ids : List String)
    (db : DB) : DB × Option String :=
  match EmailDAO.delete_emails user_id gmail_message_ids db with
  | (db1, some e) => (db1, some e)
  | (db1, none) => EmailDAO.delete_processed_emails user_id gmail_message_ids db1

/-! ## Classifier response handling (src/app/services/openai_service.py,
categorize_email)

The source parses the model response with `result = eval(response…content)`:
the response text is evaluated as a Python expression. A Python value and an
evaluation with observable side effects are modelled explicitly; `pyEval`
models the `eval` builtin at its interface — evaluating an expression
performs its side effects and produces its value. -/

inductive PyLit where
  | pyInt : Int → PyLit
  | pyStr : String → PyLit
  | pyDict : List (String × PyLit) → PyLit
  | pyList : List PyLit → PyLit

/-- A model response as a Python expression: either a pure literal, or an
expression whose evaluation performs the named side effect (for example
`__import__("os").system(...)`) before yielding a value. -/
inductive PyExpr where
  | lit : PyLit → PyExpr
  | effectful : String → PyLit → PyExpr

/-- The `eval` builtin at its interface: the list of side effects performed
during evaluation, and the resulting value. -/
def pyEval : PyExpr → List String × PyLit
  | .lit v => ([], v)
  | .effectful eff v => ([eff], v)

/-- Python dict item assignment when the value is a dict; `none` models the
`TypeError` raised by `result["gmail_message_id"] = ...` on a non-dict. -/
def dictSet : PyLit → String → PyLit → Option PyLit
  | .pyDict fields, k, v =>
    some (.pyDict (if fields.any (fun f => f.fst == k) then
      fields.map (fun f => if f.fst == k then (k, v) else f)
    else fields ++ [(k, v)]))
  | _, _, _ => none

/-- The response-handling tail of `categorize_email` (lines 88-94 of
src/app/services/openai_service.py): evaluate the response content, then
attach the message id; any raise is wrapped into a generic exception. The
first component records the side effects the evaluation performed. -/
def categorize_email_parse (content : PyExpr) (gmail_message_id : String) :
    List String × Except String PyLit :=
  let (effects, value) := pyEval content
  match dictSet value "gmail_message_id" (.pyStr gmail_message_id) with
  | some result => (effects, .ok result)
  | none => (effects, .error "Error analyzing email with OpenAI")

/-! ## Shared lemmas about the table primitives -/

theorem mem_upsertRow_self {ρ κ : Type} [DecidableEq κ] (key : ρ → κ)
    (tbl : List ρ) (row : ρ) : row ∈ upsertRow key tbl row := by
  unfold upsertRow
  by_cases h : tbl.any (fun r => decide (key r = key row)) = true
  · rw [if_pos h]
    rcases List.any_eq_true.mp h with ⟨r, hr, hkr⟩
    exact List.mem_map.mpr ⟨r, hr, by simp [of_decide_eq_true hkr]⟩
  · rw [if_neg h]
    simp

theorem mem_upsertRow_of_ne {ρ κ : Type} [DecidableEq κ] (key : ρ → κ)
    (tbl : List ρ) (row r : ρ) (hr : r ∈ tbl) (hne : key r ≠ key row) :
    r ∈ upsertRow key tbl row := by
  unfold upsertRow
  by_cases h : tbl.any (fun r => decide (key r = key row)) = true
  · rw [if_pos h]
    exact List.mem_map.mpr ⟨r, hr, by simp [hne]⟩
  · rw [if_neg h]
    simp [hr]

theorem filter_upsertRow {ρ κ : Type} [DecidableEq κ] (key : ρ → κ)
    (p : ρ → Bool) (tbl : List ρ) (row : ρ) (hrow : p row = false)
    (hkey : ∀ r, p r = true → key r ≠ key row) :
    (upsertRow key tbl row).filter p = tbl.filter p := by
  unfold upsertRow
  by_cases h : tbl.any (fun r => decide (key r = key row)) = true
  · rw [if_pos h]
    clear h
    induction tbl with
    | nil => rfl
    | cons r rs ih =>
      by_cases hk : key r = key row
      · have hpr : p r = false := by
          by_contra hc
          exact hkey r (by simpa using hc) hk
        simp [List.filter_cons, hk, hpr, hrow, ih]
      · by_cases hp : p r = true
        · simp [List.filter_cons, hk, hp, ih]
        · simp only [Bool.not_eq_true] at hp
          simp [List.filter_cons, hk, hp, ih]
  · rw [if_neg h]
    simp [List.filter_append, List.filter_cons, hrow]

theorem filter_filter_not_hit {α : Type} (p hit : α → Bool) (l : List α)
    (h : ∀ r, p r = true → hit r = false) :
    (l.filter (fun r => !(hit r))).filter p = l.filter p := by
  induction l with
  | nil => rfl
  | cons r rs ih =>
    by_cases hp : p r = true
    · simp [List.filter_cons, h r hp, hp, ih]
    · simp only [Bool.not_eq_true] at hp
      by_cases hh : hit r = true
      · simp [List.filter_cons, hh, hp, ih]
      · simp only [Bool.not_eq_true] at hh
        simp [List.filter_cons, hh, hp, ih]

theorem filter_map_update {α : Type} (p : α → Bool) (f : α → α) (l : List α)
    (h1 : ∀ a, p (f a) = p a) (h2 : ∀ a, p a = true → f a = a) :
    (l.map f).filter p = l.filter p := by
  induction l with
  | nil => rfl
  | cons r rs ih =>
    by_cases hp : p r = true
    · simp [List.filter_cons, h1 r, hp, h2 r hp, ih]
    · simp only [Bool.not_eq_true] at hp
      simp [List.filter_cons, h1 r, hp, ih]

theorem filter_eq_self_of_all {α : Type} (p : α → Bool) (l : List α)
    (h : l.all p = true) : l.filter p = l := by
  induction l with
  | nil => rfl
  | cons r rs ih =>
    rw [List.all_cons, Bool.and_eq_true] at h
    simp [List.filter_cons, h.1, ih h.2]

theorem head_filter_of_any {α : Type} (p : α → Bool) (l : List α)
    (h : l.any p = true) : ∃ x, (l.filter p).head? = some x ∧ p x = true := by
  induction l with
  | nil => simp at h
  | cons r rs ih =>
    by_cases hp : p r = true
    · exact ⟨r, by simp [List.filter_cons, hp], hp⟩
    · simp only [Bool.not_eq_true] at hp
      have h' : rs.any p = true := by
        rcases List.any_eq_true.mp h with ⟨x, hx, hpx⟩
        rcases List.mem_cons.mp hx with hx | hx
        · subst hx; rw [hp] at hpx; cases hpx
        · exact List.any_eq_true.mpr ⟨x, hx, hpx⟩
      rcases ih h' with ⟨x, hx1, hx2⟩
      exact ⟨x, by simp [List.filter_cons, hp, hx1], hx2⟩

theorem isEmpty_false_of_any {α : Type} (p : α → Bool) (l : List α)
    (h : l.any p = true) : (l.filter p).isEmpty = false := by
  rcases head_filter_of_any p l h with ⟨x, hx, _⟩
  cases hfl : l.filter p with
  | nil => rw [hfl] at hx; cases hx
  | cons y ys => simp

theorem filter_eq_nil_of_all_not {α : Type} (p : α → Bool) (l : List α)
    (h : l.all (fun r => !(p r)) = true) : l.filter p = [] := by
  apply List.filter_eq_nil_iff.mpr
  intro x hx
  have := List.all_eq_true.mp h x hx
  simp only [Bool.not_eq_true'] at this
  simp [this]

/-- Membership characterization of the unprocessed delta: a raw row is
returned exactly when it belongs to the user and its message id has no
processed row for that user — the match is on the message id alone. -/
theorem mem_get_unprocessed_iff (u : String) (db : DB) (r : RawEmail) :
    r ∈ EmailDAO.get_unprocessed_emails u db ↔
      r ∈ db.raw_emails ∧ r.user_id = u ∧
        r.gmail_message_id ∉ EmailDAO.processedIds u db := by
  unfold EmailDAO.get_unprocessed_emails
  rw [List.mem_filter, mem_sortDescBy, List.mem_filter]
  constructor
  · rintro ⟨⟨hmem, hu⟩, hnp⟩
    refine ⟨hmem, by simpa using hu, ?_⟩
    intro hc
    simp [hc] at hnp
  · rintro ⟨hmem, hu, hnp⟩
    exact ⟨⟨hmem, by simpa using hu⟩, by simp [hnp]⟩

/-! ## Claim C1 — classifier response handling -/

theorem foldr_max_le (l : List Nat) (m : Nat) (h : ∀ x ∈ l, x ≤ m) :
    l.foldr max 0 ≤ m := by
  induction l with
  | nil => exact Nat.zero_le m
  | cons a as ih =>
    simp only [List.foldr_cons]
    exact Nat.max_le.mpr ⟨h a (List.mem_cons_self a as),
      ih (fun x hx => h x (List.mem_cons_of_mem a hx))⟩

theorem le_foldr_max (l : List Nat) (x : Nat) (hx : x ∈ l) :
    x ≤ l.foldr max 0 := by
  induction l with
  | nil => cases hx
  | cons a as ih =>
    simp only [List.foldr_cons]
    rcases List.mem_cons.mp hx with h | h
    · subst h; exact Nat.le_max_left x _
    · exact Nat.le_trans (ih h) (Nat.le_max_right a _)

theorem foldr_max_eq (l : List Nat) (m : Nat) (hm : m ∈ l)
    (hall : ∀ x ∈ l, x ≤ m) : l.foldr max 0 = m :=
  Nat.le_antisymm (foldr_max_le l m hall) (le_foldr_max l m hm)

/-- C1: the claim that `categorize_email` parses the model response only as
trusted structured data and never executes it as code is contradicted by the
source: line 89 of src/app/services/openai_service.py evaluates the response
text with the `eval` builtin. Evaluating an effect-bearing response performs
its side effect, and a dict of the wrong shape is accepted without any
validation — the parse step neither avoids execution nor enforces the
`category_id`/`summary`/`confidence` shape the claim describes. -/
theorem c1_categorize_email_eval_executes_code :
    categorize_email_parse
        (.effectful "import os; os.system(rm -rf ~)" (.pyDict [])) "m1" =
      (["import os; os.system(rm -rf ~)"],
        .ok (.pyDict [("gmail_message_id", .pyStr "m1")])) ∧
    categorize_email_parse (.lit (.pyDict [("category_id", .pyStr "wrong")])) "m2" =
      ([], .ok (.pyDict [("category_id", .pyStr "wrong"),
        ("gmail_message_id", .pyStr "m2")])) :=
  ⟨rfl, rfl⟩

/-! ## Claim C6 — category id assignment -/


theorem next_id_eq (ids : List Nat) :
    (match (sortDescBy (fun i => i) ids).head? with
     | none => 1
     | some m => m + 1) = ids.foldr max 0 + 1 := by
  cases hht : sortDescBy (fun i => i) ids with
  | nil =>
    have hperm := sortDescBy_perm (fun i => i) ids
    rw [hht] at hperm
    have hnil : ids = [] := hperm.symm.eq_nil
    subst hnil
    simp
  | cons h t =>
    obtain ⟨hmem, hall⟩ := sortDescBy_head_max (fun i => i) ids h t hht
    have hmax : ids.foldr max 0 = h := foldr_max_eq ids h hmem hall
    simp [hmax]

/-- C6: `create_category` assigns the new user-scoped category id as
max(existing ids of the user) + 1 — which is 1 for a user with no
categories — so every existing id is strictly below the new one (gaps are
never reused) and the new row is appended. -/
theorem c6_category_id_assignment (db : DB) (u nm : String)
    (descr : Option String) :
    (CategoryDAO.create_category u nm descr db).2.category_id =
        ((db.categories.filter (fun c => c.user_id == u)).map
          (fun c => c.category_id)).foldr max 0 + 1 ∧
      ((db.categories.filter (fun c => c.user_id == u)).map
          (fun c => c.category_id)).all
        (fun i => decide
          (i < (CategoryDAO.create_category u nm descr db).2.category_id)) = true ∧
      (CategoryDAO.create_category u nm descr db).1.categories =
        db.categories ++ [(CategoryDAO.create_category u nm descr db).2] := by
  have hid : (CategoryDAO.create_category u nm descr db).2.category_id =
      ((db.categories.filter (fun c => c.user_id == u)).map
        (fun c => c.category_id)).foldr max 0 + 1 := by
    have h := next_id_eq ((db.categories.filter (fun c => c.user_id == u)).map
      (fun c => c.category_id))
    simpa [CategoryDAO.create_category] using h
  refine ⟨hid, ?_, rfl⟩
  rw [List.all_eq_true]
  intro x hx
  rw [hid]
  have := le_foldr_max _ x hx
  simpa using Nat.lt_succ_of_le this

/-! ## Claim C2 — per-user scoping -/

/-- A legacy `public.emails` row as written during some user session (the
legacy table carries no user column at all). -/
def c2row : LegacyEmail :=
  { id := "e1", subject := "s", sender := "a@x", recipient := "b@x"
    content := "body", received_at := 5, category := some "news" }

def c2db : DB :=
  { raw_emails := [], processed_emails := [], categories := []
    gmail_accounts := [], emails := [c2row] }

/-- C2 counterexample: `get_emails_by_category` (predefined SQL
`GET_EMAILS_BY_CATEGORY`) takes no user id and filters only on the category
column, so it returns the whole matching table content — rows written during
any user's session are visible to every caller, contradicting the claim that
every Repository read is pre-filtered on user id. -/
theorem c2_counterexample_category_query_unscoped :
    EmailDAO.get_emails_by_category c2db "news" = c2db.emails ∧
      c2db.emails ≠ [] :=
  ⟨rfl, by decide⟩

/-- The projection of the database visible to user `v`: the `v`-rows of each
user-keyed table. -/
def userView (v : String) (db : DB) :
    List RawEmail × List ProcessedEmail × List Category × List GmailAccount :=
  (db.raw_emails.filter (fun r => r.user_id == v),
   db.processed_emails.filter (fun p => p.user_id == v),
   db.categories.filter (fun c => c.user_id == v),
   db.gmail_accounts.filter (fun a => a.user_id == v))

/-- The scoping property for the user-id-parameterized Repository operations:
reads issued for `u` only return `u`-rows, and writes issued by `u` leave the
view of any other user `v` unchanged. -/
def scopedOps (db : DB) (u v : String) (ids : List String)
    (batch : List EmailData) (cat : Categorization) (mid sub : String)
    (cname : String) (cdesc : Option String) : Prop :=
  (EmailDAO.get_all_emails u db).all (fun p => p.user_id == u) = true ∧
  (EmailDAO.get_all_raw_emails u db).all (fun r => r.user_id == u) = true ∧
  (EmailDAO.get_emails_by_ids u ids db).all (fun r => r.user_id == u) = true ∧
  (EmailDAO.get_all_categories u db).all (fun c => c.user_id == u) = true ∧
  (EmailDAO.get_unprocessed_emails u db).all (fun r => r.user_id == u) = true ∧
  (EmailDAO.get_gmail_account u sub db).all (fun a => a.user_id == u) = true ∧
  userView v (EmailDAO.insert_emails u batch db).1 = userView v db ∧
  userView v (EmailDAO.save_email_categories u cat db).1 = userView v db ∧
  userView v (EmailDAO.delete_emails u ids db).1 = userView v db ∧
  userView v (EmailDAO.delete_processed_emails u ids db).1 = userView v db ∧
  userView v (EmailDAO.mark_as_unsubscribed u mid db).1 = userView v db ∧
  userView v (EmailDAO.mark_as_archived u mid db) = userView v db ∧
  userView v (CategoryDAO.create_category u cname cdesc db).1 = userView v db

theorem all_filter_self {α : Type} (p : α → Bool) (l : List α) :
    (l.filter p).all p = true := by
  rw [List.all_eq_true]
  intro x hx
  exact (List.mem_filter.mp hx).2

theorem user_beq_false (u v : String) (h : v ≠ u) : (u == v) = false := by
  simpa using fun hc => h hc.symm

theorem filter_foldl_upsert_raw (v u : String) (rows tbl : List RawEmail)
    (huv : v ≠ u) (hrows : ∀ e ∈ rows, e.user_id = u) :
    (rows.foldl (upsertRow rawKey) tbl).filter (fun r => r.user_id == v) =
      tbl.filter (fun r => r.user_id == v) := by
  induction rows generalizing tbl with
  | nil => rfl
  | cons e es ih =>
    simp only [List.foldl_cons]
    rw [ih (upsertRow rawKey tbl e)
      (fun x hx => hrows x (List.mem_cons_of_mem e hx))]
    apply filter_upsertRow
    · rw [hrows e (List.mem_cons_self e es)]
      exact user_beq_false u v huv
    · intro r hr hk
      have h1 : r.user_id = e.user_id := congrArg Prod.fst hk
      rw [hrows e (List.mem_cons_self e es)] at h1
      rw [h1] at hr
      rw [user_beq_false u v huv] at hr
      cases hr


theorem userView_ext (v : String) (db1 db2 : DB)
    (h1 : db1.raw_emails.filter (fun r => r.user_id == v) =
      db2.raw_emails.filter (fun r => r.user_id == v))
    (h2 : db1.processed_emails.filter (fun p => p.user_id == v) =
      db2.processed_emails.filter (fun p => p.user_id == v))
    (h3 : db1.categories.filter (fun c => c.user_id == v) =
      db2.categories.filter (fun c => c.user_id == v))
    (h4 : db1.gmail_accounts.filter (fun a => a.user_id == v) =
      db2.gmail_accounts.filter (fun a => a.user_id == v)) :
    userView v db1 = userView v db2 := by
  unfold userView
  rw [h1, h2, h3, h4]

/-- C2 (amended): every user-id-parameterized Repository operation is
pre-filtered on user id — reads issued for `u` return only `u`-rows, and
writes issued by `u` leave any other user's view of the four user-keyed
tables unchanged. The legacy raw-SQL helpers over `public.emails` are the
exception recorded in the counterexample. -/
theorem c2_user_scoped_ops (db : DB) (u v : String) (ids : List String)
    (batch : List EmailData) (cat : Categorization) (mid sub : String)
    (cname : String) (cdesc : Option String) (huv : v ≠ u) :
    scopedOps db u v ids batch cat mid sub cname cdesc := by
  refine ⟨?_, ?_, ?_, ?_, ?_, ?_, ?_, ?_, ?_, ?_, ?_, ?_, ?_⟩
  · -- get_all_emails returns only u-rows
    unfold EmailDAO.get_all_emails
    rw [sortDescBy_all]
    exact all_filter_self _ _
  · -- get_all_raw_emails returns only u-rows
    unfold EmailDAO.get_all_raw_emails
    rw [sortDescBy_all]
    exact all_filter_self _ _
  · -- get_emails_by_ids returns only u-rows
    unfold EmailDAO.get_emails_by_ids
    rw [List.all_eq_true]
    intro x hx
    have h2 := (List.mem_filter.mp hx).2
    rw [Bool.and_eq_true] at h2
    exact h2.1
  · -- get_all_categories returns only u-rows
    unfold EmailDAO.get_all_categories
    exact all_filter_self _ _
  · -- get_unprocessed_emails returns only u-rows
    unfold EmailDAO.get_unprocessed_emails
    rw [List.all_eq_true]
    intro x hx
    have hx1 := (List.mem_filter.mp hx).1
    rw [mem_sortDescBy] at hx1
    exact (List.mem_filter.mp hx1).2
  · -- get_gmail_account returns only a u-row
    unfold EmailDAO.get_gmail_account
    cases hfl : db.gmail_accounts.filter
        (fun a => a.user_id == u && a.google_sub == sub) with
    | nil => rfl
    | cons y ys =>
      have hy : y ∈ db.gmail_accounts.filter
          (fun a => a.user_id == u && a.google_sub == sub) := by
        rw [hfl]; exact List.mem_cons_self y ys
      have hcond := (List.mem_filter.mp hy).2
      rw [Bool.and_eq_true] at hcond
      simpa [Option.all] using hcond.1
  · -- insert_emails leaves the v-view unchanged
    by_cases hb : batch.isEmpty = true
    · dsimp only [EmailDAO.insert_emails]
      rw [if_pos hb]
    · dsimp only [EmailDAO.insert_emails]
      rw [if_neg hb]
      refine userView_ext v _ _ ?_ rfl rfl rfl
      dsimp only
      rw [filter_foldl_upsert_raw v u _ _ huv]
      intro e he
      rcases List.mem_map.mp he with ⟨x, _, hx⟩
      rw [← hx]
  · -- save_email_categories leaves the v-view unchanged
    cases hh : (EmailDAO.get_emails_by_ids u [cat.gmail_message_id] db).head? with
    | none => simp [EmailDAO.save_email_categories, hh]
    | some e =>
      dsimp only [EmailDAO.save_email_categories]
      rw [hh]
      refine userView_ext v _ _ rfl ?_ rfl rfl
      dsimp only
      apply filter_upsertRow
      · exact user_beq_false u v huv
      · intro r hr hk
        have h1 : r.user_id = u := congrArg Prod.fst hk
        rw [h1, user_beq_false u v huv] at hr
        cases hr
  · -- delete_emails leaves the v-view unchanged
    refine userView_ext v _ _ ?_ rfl rfl rfl
    dsimp only [EmailDAO.delete_emails]
    rw [filter_filter_not_hit]
    intro r hr
    have hru : r.user_id = v := by simpa using hr
    rw [hru]
    simp [user_beq_false v u (fun hc => huv hc.symm)]
  · -- delete_processed_emails leaves the v-view unchanged
    refine userView_ext v _ _ rfl ?_ rfl rfl
    dsimp only [EmailDAO.delete_processed_emails]
    rw [filter_filter_not_hit]
    intro r hr
    have hru : r.user_id = v := by simpa using hr
    rw [hru]
    simp [user_beq_false v u (fun hc => huv hc.symm)]
  · -- mark_as_unsubscribed leaves the v-view unchanged
    refine userView_ext v _ _ rfl ?_ rfl rfl
    dsimp only [EmailDAO.mark_as_unsubscribed]
    rw [filter_map_update]
    · intro a
      by_cases hcond : (a.user_id == u && a.gmail_message_id == mid) = true
      · simp [hcond]
      · simp only [Bool.not_eq_true] at hcond
        simp [hcond]
    · intro a ha
      have hav : a.user_id = v := by simpa using ha
      have hcond : (a.user_id == u && a.gmail_message_id == mid) = false := by
        rw [hav, user_beq_false v u (fun hc => huv hc.symm)]
        simp
      simp [hcond]
  · -- mark_as_archived leaves the v-view unchanged
    refine userView_ext v _ _ ?_ ?_ rfl rfl
    · dsimp only [EmailDAO.mark_as_archived]
      rw [filter_map_update]
      · intro a
        by_cases hcond : (a.user_id == u && a.gmail_message_id == mid) = true
        · simp [hcond]
        · simp only [Bool.not_eq_true] at hcond
          simp [hcond]
      · intro a ha
        have hav : a.user_id = v := by simpa using ha
        have hcond : (a.user_id == u && a.gmail_message_id == mid) = false := by
          rw [hav, user_beq_false v u (fun hc => huv hc.symm)]
          simp
        simp [hcond]
    · dsimp only [EmailDAO.mark_as_archived]
      rw [filter_map_update]
      · intro a
        by_cases hcond : (a.user_id == u && a.gmail_message_id == mid) = true
        · simp [hcond]
        · simp only [Bool.not_eq_true] at hcond
          simp [hcond]
      · intro a ha
        have hav : a.user_id = v := by simpa using ha
        have hcond : (a.user_id == u && a.gmail_message_id == mid) = false := by
          rw [hav, user_beq_false v u (fun hc => huv hc.symm)]
          simp
        simp [hcond]
  · -- create_category leaves the v-view unchanged
    refine userView_ext v _ _ rfl rfl ?_ rfl
    dsimp only [CategoryDAO.create_category]
    rw [List.filter_append]
    simp [user_beq_false u v huv]

def c2wraw : RawEmail :=
  { user_id := "alice", gmail_message_id := "m1", thread_id := "t1"
    subject := "s", body := "b", received_at := 3, archived := false
    google_sub := "g1" }

def c2wproc : ProcessedEmail :=
  { user_id := "alice", gmail_message_id := "m1", thread_id := "t1"
    subject := "s", ai_summary := "sum", category_id := 1
    unsubscribed := false, received_at := 3, archived := false
    google_sub := "g1" }

def c2wdb : DB :=
  { raw_emails := [c2wraw]
    processed_emails := [c2wproc]
    categories := [{ user_id := "alice", category_id := 1, name := "n"
                     description := none }]
    gmail_accounts := [{ user_id := "alice", google_sub := "g1"
                         email := "a@x", access_token := "at"
                         refresh_token := "rt" }]
    emails := [] }

/-- Witness for the C2 scoping theorem at a concrete database and a concrete
pair of distinct users. -/
theorem c2_user_scoped_ops_witness :
    scopedOps c2wdb "alice" "bob" ["m1"]
      [{ gmail_message_id := "m2", thread_id := "t2", subject := "s2"
         body := "b2", received_at := 4, archived := false
         google_sub := "g1" }]
      { gmail_message_id := "m1", category_id := 1, summary := "sum" }
      "m1" "g1" "newcat" none :=
  c2_user_scoped_ops c2wdb "alice" "bob" ["m1"]
    [{ gmail_message_id := "m2", thread_id := "t2", subject := "s2"
       body := "b2", received_at := 4, archived := false
       google_sub := "g1" }]
    { gmail_message_id := "m1", category_id := 1, summary := "sum" }
    "m1" "g1" "newcat" none (by decide)

/-! ## Claim C3 — unprocessed delta -/

def c3raw : RawEmail :=
  { user_id := "u1", gmail_message_id := "m1", thread_id := "t1"
    subject := "s", body := "b", received_at := 10, archived := false
    google_sub := "acct-a" }

def c3proc : ProcessedEmail :=
  { user_id := "u1", gmail_message_id := "m1", thread_id := "t2"
    subject := "s", ai_summary := "sum", category_id := 1
    unsubscribed := false, received_at := 9, archived := false
    google_sub := "acct-b" }

def c3db : DB :=
  { raw_emails := [c3raw], processed_emails := [c3proc], categories := []
    gmail_accounts := [], emails := [] }

/-- C3 counterexample: the raw row and the processed row disagree on thread
id and account sub, so the raw row's full conflict key matches no processed
row, yet `get_unprocessed_emails` returns nothing — the code keys the delta
on the message id alone, not on the full conflict key as claimed. -/
theorem c3_counterexample_delta_ignores_thread_and_account :
    EmailDAO.get_unprocessed_emails "u1" c3db = [] ∧
      c3raw ∈ c3db.raw_emails ∧
      c3db.processed_emails.all
        (fun p => decide (procKey p ≠ rawKey c3raw)) = true := by
  refine ⟨?_, by decide, by decide⟩
  rfl

theorem processedIds_upsert_mem (u : String) (tbl : List ProcessedEmail)
    (row : ProcessedEmail) (hu : row.user_id = u) :
    row.gmail_message_id ∈
      ((upsertRow procKey tbl row).filter (fun p => p.user_id == u)).map
        (fun p => p.gmail_message_id) := by
  apply List.mem_map.mpr
  refine ⟨row, ?_, rfl⟩
  apply List.mem_filter.mpr
  exact ⟨mem_upsertRow_self procKey tbl row, by simp [hu]⟩

/-- C3 (amended): `get_unprocessed_emails` returns exactly the user's raw
rows whose message id has no processed row for that user — matching on the
message id alone, not the full conflict key — and upserting a processed row
for a message id removes every raw row with that id from subsequent
unprocessed results. -/
theorem c3_unprocessed_delta_by_message_id :
    (∀ (db : DB) (u : String) (r : RawEmail),
      r ∈ EmailDAO.get_unprocessed_emails u db ↔
        r ∈ db.raw_emails ∧ r.user_id = u ∧
          r.gmail_message_id ∉ EmailDAO.processedIds u db) ∧
    (∀ (db db' : DB) (u : String) (cat : Categorization) (r : RawEmail),
      EmailDAO.save_email_categories u cat db = (db', none) →
      r.gmail_message_id = cat.gmail_message_id →
      r ∉ EmailDAO.get_unprocessed_emails u db') := by
  refine ⟨fun db u r => mem_get_unprocessed_iff u db r, ?_⟩
  intro db db' u cat r hsave hid hmem
  rcases (mem_get_unprocessed_iff u db' r).mp hmem with ⟨_, _, hnp⟩
  apply hnp
  rw [hid]
  revert hsave
  unfold EmailDAO.save_email_categories
  cases hh : (EmailDAO.get_emails_by_ids u [cat.gmail_message_id] db).head? with
  | none => intro hsave; cases hsave
  | some e =>
    intro hsave
    dsimp only at hsave
    have hfst := congrArg Prod.fst hsave
    dsimp only at hfst
    rw [← hfst]
    unfold EmailDAO.processedIds
    dsimp only
    exact processedIds_upsert_mem u db.processed_emails _ rfl

def c3db0 : DB :=
  { raw_emails := [c3raw], processed_emails := [], categories := []
    gmail_accounts := [], emails := [] }

def c3cat : Categorization :=
  { gmail_message_id := "m1", category_id := 1, summary := "sum" }

def c3db1 : DB := (EmailDAO.save_email_categories "u1" c3cat c3db0).1

/-- Witness for the amended C3 theorem: before the upsert the raw row is
unprocessed, after upserting a processed row with its message id it is not. -/
theorem c3_unprocessed_delta_by_message_id_witness :
    c3raw ∈ EmailDAO.get_unprocessed_emails "u1" c3db0 ∧
      c3raw ∉ EmailDAO.get_unprocessed_emails "u1" c3db1 := by
  constructor
  · exact (c3_unprocessed_delta_by_message_id.1 c3db0 "u1" c3raw).mpr
      ⟨by decide, rfl, by decide⟩
  · exact c3_unprocessed_delta_by_message_id.2 c3db0 c3db1 "u1" c3cat c3raw
      rfl rfl

/-! ## Claim C4 — body extraction -/

def updBy (mt : String) (h : Option String) (ps : List GPart) : Option String :=
  ps.foldl
    (fun acc p => if p.mimeType == mt && p.body_data.isSome then p.body_data
      else acc) h

def finishScan (h t : Option String) : Except String String :=
  match h with
  | some d => decodeE d
  | none =>
    match t with
    | some d => decodeE d
    | none => .ok "No readable content"

theorem updBy_cons (mt : String) (h : Option String) (p : GPart)
    (ps : List GPart) :
    updBy mt h (p :: ps) =
      updBy mt
        (if p.mimeType == mt && p.body_data.isSome then p.body_data else h)
        ps := rfl

theorem extractScan_leaves (ps : List GPart) (h t : Option String)
    (hl : ps.all (fun p => !p.isContainer) = true) :
    extractScan ps h t =
      finishScan (updBy "text/html" h ps) (updBy "text/plain" t ps) := by
  induction ps generalizing h t with
  | nil => simp [extractScan, finishScan, updBy]
  | cons p rest ih =>
    rw [List.all_cons, Bool.and_eq_true] at hl
    cases p with
    | container d m cs => simp [GPart.isContainer] at hl
    | leaf d m =>
      by_cases hc1 : ((GPart.leaf d m).mimeType == "text/html" &&
          (GPart.leaf d m).body_data.isSome) = true
      · have hm : m = "text/html" := by
          rw [Bool.and_eq_true] at hc1
          simpa [GPart.mimeType] using hc1.1
        subst hm
        rw [extractScan, if_pos hc1, ih _ _ hl.2, updBy_cons, if_pos hc1,
          updBy_cons, if_neg (by simp [GPart.mimeType])]
      · by_cases hc2 : ((GPart.leaf d m).mimeType == "text/plain" &&
            (GPart.leaf d m).body_data.isSome) = true
        · have hm : m = "text/plain" := by
            rw [Bool.and_eq_true] at hc2
            simpa [GPart.mimeType] using hc2.1
          subst hm
          rw [extractScan, if_neg (by simp [hc1]), if_pos hc2, ih _ _ hl.2,
            updBy_cons, if_neg (by simp [GPart.mimeType]),
            updBy_cons, if_pos hc2]
        · rw [extractScan, if_neg (by simp [hc1]), if_neg (by simp [hc2]),
            ih _ _ hl.2, updBy_cons, if_neg (by simpa using hc1),
            updBy_cons, if_neg (by simpa using hc2)]

theorem and_true_parts {a b : Bool} (h : (a && b) = true) :
    a = true ∧ b = true := by
  rw [Bool.and_eq_true] at h
  exact h

theorem updBy_of_noData (mt : String) (ps : List GPart) (h : Option String)
    (hnd : ps.all (fun p => p.body_data.isNone) = true) : updBy mt h ps = h := by
  induction ps generalizing h with
  | nil => rfl
  | cons p rest ih =>
    rw [List.all_cons, Bool.and_eq_true] at hnd
    rw [updBy_cons, if_neg (by simp [Option.isNone_iff_eq_none.mp hnd.1]),
      ih h hnd.2]

theorem extractScan_container_preempt (cb : Option String) (cmt : String)
    (cps rest : List GPart) (r : String) (h t : Option String)
    (h1 : (cmt == "text/html" && cb.isSome) = false)
    (h2 : (cmt == "text/plain" && cb.isSome) = false)
    (hc : extractBodyP (.container cb cmt cps) = .ok r) (hr : r ≠ "") :
    extractScan (.container cb cmt cps :: rest) h t = .ok r := by
  rw [extractScan,
    if_neg (by simp [GPart.mimeType, GPart.body_data, h1]),
    if_neg (by simp [GPart.mimeType, GPart.body_data, h2])]
  simp only [hc]
  show (Except.ok r >>= fun nested =>
    if nested ≠ "" then pure nested else extractScan rest h t) =
      Except.ok r
  rw [show (Except.ok r >>= fun nested =>
    if nested ≠ "" then pure nested else extractScan rest h t) =
      (if r ≠ "" then pure r else extractScan rest h t) from rfl]
  rw [if_pos hr]
  rfl

/-- C4 (amended): the actual resolution policy of `extract_email_body`.
A falsy payload yields the empty string; own decodable `body.data` wins; a
leaf-only child scan prefers the (last) HTML leaf over plain text; a
container child with a non-empty recursive result is returned immediately
during the scan — regardless of the accumulated HTML/text state, so also
when an HTML leaf precedes the container, and also when one follows it; a
truthy payload with nothing decodable yields the fixed fallback string; and
a failing decode of the selected data (own data, or the selected HTML leaf)
surfaces as an exception rather than a value. -/
theorem c4_extract_email_body_resolution :
    extract_email_body none = .ok "" ∧
    (∀ mt, extractBodyP (.leaf none mt) = .ok "No readable content") ∧
    (∀ d s mt, decodeData d = some s →
      extractBodyP (.leaf (some d) mt) = .ok s) ∧
    (∀ d s mt ps, decodeData d = some s →
      extractBodyP (.container (some d) mt ps) = .ok s) ∧
    (∀ mt ps d s, ps.all (fun p => !p.isContainer) = true →
      updBy "text/html" none ps = some d → decodeData d = some s →
      extractBodyP (.container none mt ps) = .ok s) ∧
    (∀ mt ps, ps.all (fun p => !p.isContainer && p.body_data.isNone) = true →
      extractBodyP (.container none mt ps) = .ok "No readable content") ∧
    (∀ cb cmt cps rest r h t, (cmt == "text/html" && cb.isSome) = false →
      (cmt == "text/plain" && cb.isSome) = false →
      extractBodyP (.container cb cmt cps) = .ok r → r ≠ "" →
      extractScan (.container cb cmt cps :: rest) h t = .ok r) ∧
    (∀ d cb cmt cps mt rest r, (cmt == "text/html" && cb.isSome) = false →
      (cmt == "text/plain" && cb.isSome) = false →
      extractBodyP (.container cb cmt cps) = .ok r → r ≠ "" →
      extractBodyP (.container none mt
        (.leaf (some d) "text/html" :: .container cb cmt cps :: rest)) =
        .ok r) ∧
    (∀ cb cmt cps mt rest r, (cmt == "text/html" && cb.isSome) = false →
      (cmt == "text/plain" && cb.isSome) = false →
      extractBodyP (.container cb cmt cps) = .ok r → r ≠ "" →
      extractBodyP (.container none mt (.container cb cmt cps :: rest)) =
        .ok r) ∧
    (∀ d mt, decodeData d = none →
      extractBodyP (.leaf (some d) mt) = .error "decode error") ∧
    (∀ d mt ps, decodeData d = none →
      extractBodyP (.container (some d) mt ps) = .error "decode error") ∧
    (∀ mt ps d, ps.all (fun p => !p.isContainer) = true →
      updBy "text/html" none ps = some d → decodeData d = none →
      extractBodyP (.container none mt ps) = .error "decode error") := by
  refine ⟨rfl, ?_, ?_, ?_, ?_, ?_, ?_, ?_, ?_, ?_, ?_, ?_⟩
  · intro mt
    simp [extractBodyP]
  · intro d s mt hd
    simp [extractBodyP, decodeE, hd]
  · intro d s mt ps hd
    simp [extractBodyP, decodeE, hd]
  · intro mt ps d s hleaves hhtml hdec
    rw [extractBodyP]
    rw [extractScan_leaves ps none none hleaves, hhtml]
    simp [finishScan, decodeE, hdec]
  · intro mt ps hps
    have hleaves : ps.all (fun p => !p.isContainer) = true := by
      rw [List.all_eq_true] at hps ⊢
      intro p hp
      exact (and_true_parts (hps p hp)).1
    have hnd : ps.all (fun p => p.body_data.isNone) = true := by
      rw [List.all_eq_true] at hps ⊢
      intro p hp
      exact (and_true_parts (hps p hp)).2
    rw [extractBodyP, extractScan_leaves ps none none hleaves,
      updBy_of_noData _ _ _ hnd, updBy_of_noData _ _ _ hnd]
    rfl
  · intro cb cmt cps rest r h t h1 h2 hc hr
    exact extractScan_container_preempt cb cmt cps rest r h t h1 h2 hc hr
  · intro d cb cmt cps mt rest r h1 h2 hc hr
    rw [extractBodyP, extractScan,
      if_pos (by simp [GPart.mimeType, GPart.body_data])]
    exact extractScan_container_preempt cb cmt cps rest r _ none h1 h2 hc hr
  · intro cb cmt cps mt rest r h1 h2 hc hr
    rw [extractBodyP]
    exact extractScan_container_preempt cb cmt cps rest r none none h1 h2
      hc hr
  · intro d mt hd
    simp [extractBodyP, decodeE, hd]
  · intro d mt ps hd
    simp [extractBodyP, decodeE, hd]
  · intro mt ps d hleaves hhtml hd
    rw [extractBodyP]
    rw [extractScan_leaves ps none none hleaves, hhtml]
    simp [finishScan, decodeE, hd]

/-- C4 counterexample: the claim fails on the code in two concrete ways.
An empty (falsy) payload — which has no decodable content — yields the
empty string, not the fixed fallback string; and a leaf whose `body.data`
is the malformed base64 text `a` makes the extractor raise (the decode
error propagates), refuting that the function is total and never raises. -/
theorem c4_counterexample_empty_payload_returns_empty_string :
    (extract_email_body none = .ok "" ∧
      ("" : String) ≠ "No readable content") ∧
      extractBodyP (.leaf (some "a") "text/plain") = .error "decode error" :=
  ⟨⟨rfl, by decide⟩, rfl⟩

/-- Witness for the amended C4 theorem at concrete payloads: fallback on an
empty leaf, own-data decoding, HTML preferred over plain text among leaves,
fallback when nothing is decodable, container preemption with the HTML leaf
on either side of the container, and a propagated decode failure. -/
theorem c4_extract_email_body_resolution_witness :
    extractBodyP (.leaf none "text/html") = .ok "No readable content" ∧
    extractBodyP (.leaf (some "aGk=") "text/plain") = .ok "hi" ∧
    extractBodyP (.container (some "aGk=") "multipart/mixed"
      [.leaf none ""]) = .ok "hi" ∧
    extractBodyP (.container none "multipart/alternative"
      [.leaf (some "aGk=") "text/plain",
       .leaf (some "PGI+aGk8L2I+") "text/html"]) = .ok "<b>hi</b>" ∧
    extractBodyP (.container none "x"
      [.leaf none "a", .leaf none "b"]) = .ok "No readable content" ∧
    extractBodyP (.container none "m"
      [.leaf (some "PGI+aGk8L2I+") "text/html",
       .container none "multipart/alternative"
         [.leaf (some "aGk=") "text/plain"]]) = .ok "hi" ∧
    extractBodyP (.container none "m"
      [.container none "multipart/alternative"
        [.leaf (some "aGk=") "text/plain"],
       .leaf (some "PGI+aGk8L2I+") "text/html"]) = .ok "hi" ∧
    extractBodyP (.leaf (some "a") "text/plain") = .error "decode error" := by
  obtain ⟨-, h2, h3, h4, h5, h6, -, h8, h9, h10, -, -⟩ :=
    c4_extract_email_body_resolution
  refine ⟨h2 "text/html", h3 "aGk=" "hi" "text/plain" rfl,
    h4 "aGk=" "hi" "multipart/mixed" [.leaf none ""] rfl, ?_, ?_, ?_, ?_, ?_⟩
  · exact h5 "multipart/alternative" _ "PGI+aGk8L2I+" "<b>hi</b>" rfl rfl rfl
  · exact h6 "x" _ rfl
  · exact h8 "PGI+aGk8L2I+" none "multipart/alternative"
      [.leaf (some "aGk=") "text/plain"] "m" [] "hi" rfl rfl rfl (by decide)
  · exact h9 none "multipart/alternative"
      [.leaf (some "aGk=") "text/plain"] "m"
      [.leaf (some "PGI+aGk8L2I+") "text/html"] "hi" rfl rfl rfl (by decide)
  · exact h10 "a" "text/plain" rfl

/-! ## Claim C7 — deterministic stable merge ordering -/

/-- C7: the merged result of `poll_all_gmail_accounts` is exactly the
concatenation of the per-account returned message lists sorted by received
timestamp descending: a permutation of the concatenation, pairwise
descending, and stable — for every timestamp value the messages carrying it
keep their original per-account concatenation order — hence deterministic. -/
theorem c7_merged_stable_descending (user_id : String)
    (provider_token : Option String) (remotes : String → List RemoteMsg)
    (db : DB) :
    (poll_all_gmail_accounts user_id provider_token remotes db).2 =
        sortDescBy (fun r => r.received_at)
          (pollConcat user_id provider_token remotes db) ∧
      List.Perm (poll_all_gmail_accounts user_id provider_token remotes db).2
        (pollConcat user_id provider_token remotes db) ∧
      DescSorted (fun r => r.received_at)
        (poll_all_gmail_accounts user_id provider_token remotes db).2 ∧
      ∀ ts : Nat,
        ((poll_all_gmail_accounts user_id provider_token remotes db).2).filter
            (fun r => r.received_at == ts) =
          (pollConcat user_id provider_token remotes db).filter
            (fun r => r.received_at == ts) := by
  have heq : (poll_all_gmail_accounts user_id provider_token remotes db).2 =
      sortDescBy (fun r => r.received_at)
        (pollConcat user_id provider_token remotes db) := by
    unfold poll_all_gmail_accounts pollConcat
    by_cases hacc :
        (db.gmail_accounts.filter (fun a => a.user_id == user_id)).isEmpty = true
    · rw [List.isEmpty_iff] at hacc
      simp [hacc, sortDescBy]
    · rw [if_neg hacc]
  refine ⟨heq, ?_, ?_, ?_⟩
  · rw [heq]; exact sortDescBy_perm _ _
  · rw [heq]; exact sortDescBy_sorted _ _
  · intro ts; rw [heq]; exact sortDescBy_stable _ _ ts

/-! ## Claim C10 — non-atomic user-facing delete -/

/-- C10: when every targeted id lacks a processed row (and at least one raw
row matches), `delete_emails` removes the raw rows and then raises from the
processed-table delete, which treats its empty delete result as a failure:
the final state has the raw rows gone and the processed table untouched,
while the operation reports the processed-delete failure. -/
theorem c10_delete_not_atomic (db : DB) (u : String) (ids : List String)
    (hraw : db.raw_emails.any
      (fun r => r.user_id == u && ids.contains r.gmail_message_id) = true)
    (hproc : db.processed_emails.all
      (fun p => !(p.user_id == u && ids.contains p.gmail_message_id)) = true) :
    (service_delete_emails u ids db).1.raw_emails =
        db.raw_emails.filter
          (fun r => !(r.user_id == u && ids.contains r.gmail_message_id)) ∧
      (service_delete_emails u ids db).1.processed_emails =
        db.processed_emails ∧
      (service_delete_emails u ids db).2 =
        some "Failed to delete emails from processed_emails" := by
  have h1 : (db.raw_emails.filter
      (fun r => r.user_id == u && ids.contains r.gmail_message_id)).isEmpty =
        false :=
    isEmpty_false_of_any _ _ hraw
  have h2 : db.processed_emails.filter
      (fun p => p.user_id == u && ids.contains p.gmail_message_id) = [] :=
    filter_eq_nil_of_all_not _ _ hproc
  have h3 : db.processed_emails.filter
      (fun p => !(p.user_id == u && ids.contains p.gmail_message_id)) =
        db.processed_emails :=
    filter_eq_self_of_all _ _ hproc
  unfold service_delete_emails EmailDAO.delete_emails
    EmailDAO.delete_processed_emails
  simp only [h1, h2, h3, Bool.false_eq_true, if_false, List.isEmpty_nil,
    if_true]
  exact ⟨trivial, trivial, trivial⟩

def c10raw : RawEmail :=
  { user_id := "u1", gmail_message_id := "m1", thread_id := "t1"
    subject := "s", body := "b", received_at := 1, archived := false
    google_sub := "g1" }

def c10db : DB :=
  { raw_emails := [c10raw], processed_emails := [], categories := []
    gmail_accounts := [], emails := [] }

/-- Witness for C10: one raw, never-classified message; deleting it removes
the raw row and reports failure. -/
theorem c10_delete_not_atomic_witness :
    (service_delete_emails "u1" ["m1"] c10db).1.raw_emails = [] ∧
      (service_delete_emails "u1" ["m1"] c10db).1.processed_emails = [] ∧
      (service_delete_emails "u1" ["m1"] c10db).2 =
        some "Failed to delete emails from processed_emails" := by
  obtain ⟨h1, h2, h3⟩ := c10_delete_not_atomic c10db "u1" ["m1"]
    (by decide) (by decide)
  exact ⟨by rw [h1]; rfl, by rw [h2]; rfl, h3⟩

/-! ## Claim C8 — poll returns the backlog, not the batch -/

theorem mapM_ok_mem {α β : Type} (f : α → Except String β) (l : List α)
    (es : List β) (h : l.mapM f = .ok es) :
    ∀ e ∈ es, ∃ x ∈ l, f x = .ok e := by
  induction l generalizing es with
  | nil =>
    simp only [List.mapM_nil, pure, Except.pure] at h
    cases h
    intro e he
    cases he
  | cons a as ih =>
    rw [List.mapM_cons] at h
    cases hfa : f a with
    | error err => rw [hfa] at h; cases h
    | ok b =>
      rw [hfa] at h
      cases hmas : as.mapM f with
      | error err =>
        rw [hmas] at h
        cases h
      | ok bs =>
        rw [hmas] at h
        simp only [bind, Except.bind, pure, Except.pure] at h
        cases h
        intro e he
        rcases List.mem_cons.mp he with he | he
        · exact ⟨a, List.mem_cons_self a as, by rw [hfa, he]⟩
        · rcases ih bs hmas e he with ⟨x, hx, hfx⟩
          exact ⟨x, List.mem_cons_of_mem a hx, hfx⟩

theorem buildEmailData_ok_id (sub : String) (m : RemoteMsg) (e : EmailData)
    (h : buildEmailData sub m = .ok e) : e.gmail_message_id = m.id := by
  revert h
  unfold buildEmailData
  cases hext : extract_email_body m.payload with
  | error err => intro h; cases h
  | ok b =>
    intro h
    simp only [bind, Except.bind, pure, Except.pure] at h
    cases h
    rfl

theorem mem_foldl_upsert_raw_of_ne (rows : List RawEmail)
    (tbl : List RawEmail) (r : RawEmail) (hr : r ∈ tbl)
    (hne : ∀ row ∈ rows, row.gmail_message_id ≠ r.gmail_message_id) :
    r ∈ rows.foldl (upsertRow rawKey) tbl := by
  induction rows generalizing tbl with
  | nil => exact hr
  | cons row rest ih =>
    simp only [List.foldl_cons]
    refine ih (upsertRow rawKey tbl row) ?_
      (fun x hx => hne x (List.mem_cons_of_mem row hx))
    apply mem_upsertRow_of_ne rawKey tbl row r hr
    intro hk
    have : r.gmail_message_id = row.gmail_message_id := by
      have := congrArg (fun k => k.2.1) hk
      simpa [rawKey] using this
    exact hne row (List.mem_cons_self row rest) this.symm

theorem mem_mark_as_archived_raw (u0 mid : String) (db : DB) (r : RawEmail)
    (hr : r ∈ db.raw_emails) (hne : r.gmail_message_id ≠ mid) :
    r ∈ (EmailDAO.mark_as_archived u0 mid db).raw_emails := by
  unfold EmailDAO.mark_as_archived
  dsimp only
  apply List.mem_map.mpr
  refine ⟨r, hr, ?_⟩
  rw [if_neg]
  intro hc
  rw [Bool.and_eq_true] at hc
  exact hne (by simpa using hc.2)

theorem map_gid_filter_user_map (f : ProcessedEmail → ProcessedEmail)
    (h1 : ∀ p, (f p).user_id = p.user_id)
    (h2 : ∀ p, (f p).gmail_message_id = p.gmail_message_id) (u : String)
    (l : List ProcessedEmail) :
    ((l.map f).filter (fun p => p.user_id == u)).map
        (fun p => p.gmail_message_id) =
      (l.filter (fun p => p.user_id == u)).map
        (fun p => p.gmail_message_id) := by
  induction l with
  | nil => rfl
  | cons p ps ih =>
    rw [List.map_cons, List.filter_cons, List.filter_cons]
    by_cases hu : (p.user_id == u) = true
    · have hfu : ((f p).user_id == u) = true := by rw [h1]; exact hu
      rw [if_pos hfu, if_pos hu, List.map_cons, List.map_cons, h2, ih]
    · have hfu : ((f p).user_id == u) = false := by
        rw [h1]
        simpa using hu
      rw [if_neg (by simp [hfu]), if_neg (by simpa using hu), ih]

theorem processedIds_mark_as_archived (u u0 mid : String) (db : DB) :
    EmailDAO.processedIds u (EmailDAO.mark_as_archived u0 mid db) =
      EmailDAO.processedIds u db := by
  unfold EmailDAO.processedIds EmailDAO.mark_as_archived
  dsimp only
  apply map_gid_filter_user_map
  · intro p
    dsimp only
    split <;> rfl
  · intro p
    dsimp only
    split <;> rfl

theorem mem_archiveStored_raw (u0 : String) (es : List EmailData) (db : DB)
    (r : RawEmail) (hr : r ∈ db.raw_emails)
    (hne : ∀ e ∈ es, e.gmail_message_id ≠ r.gmail_message_id) :
    r ∈ (archiveStored u0 es db).raw_emails := by
  induction es generalizing db with
  | nil => exact hr
  | cons e rest ih =>
    simp only [archiveStored, List.foldl_cons]
    refine ih (EmailDAO.mark_as_archived u0 e.gmail_message_id db) ?_
      (fun x hx => hne x (List.mem_cons_of_mem e hx))
    exact mem_mark_as_archived_raw u0 e.gmail_message_id db r hr
      (fun hc => hne e (List.mem_cons_self e rest) hc.symm)

theorem processedIds_archiveStored (u u0 : String) (es : List EmailData)
    (db : DB) :
    EmailDAO.processedIds u (archiveStored u0 es db) =
      EmailDAO.processedIds u db := by
  induction es generalizing db with
  | nil => rfl
  | cons e rest ih =>
    simp only [archiveStored, List.foldl_cons]
    rw [show (List.foldl
        (fun d e => EmailDAO.mark_as_archived u0 e.gmail_message_id d)
        (EmailDAO.mark_as_archived u0 e.gmail_message_id db) rest) =
      (archiveStored u0 rest
        (EmailDAO.mark_as_archived u0 e.gmail_message_id db)) from rfl]
    rw [ih (EmailDAO.mark_as_archived u0 e.gmail_message_id db)]
    exact processedIds_mark_as_archived u u0 e.gmail_message_id db

theorem mem_insert_emails_raw (u : String) (es : List EmailData) (db : DB)
    (r : RawEmail) (hr : r ∈ db.raw_emails)
    (hne : ∀ e ∈ es, e.gmail_message_id ≠ r.gmail_message_id) :
    r ∈ (EmailDAO.insert_emails u es db).1.raw_emails := by
  unfold EmailDAO.insert_emails
  by_cases hemp : es.isEmpty = true
  · rw [if_pos hemp]; exact hr
  · rw [if_neg hemp]
    dsimp only
    apply mem_foldl_upsert_raw_of_ne _ _ _ hr
    intro row hrow
    rcases List.mem_map.mp hrow with ⟨e, he, heq⟩
    rw [← heq]
    exact hne e he

theorem insert_emails_processed (u : String) (es : List EmailData) (db : DB) :
    (EmailDAO.insert_emails u es db).1.processed_emails =
      db.processed_emails := by
  unfold EmailDAO.insert_emails
  by_cases hemp : es.isEmpty = true
  · rw [if_pos hemp]
  · rw [if_neg hemp]

theorem insert_emails_err_none (u : String) (es : List EmailData) (db : DB)
    (hemp : ¬ es.isEmpty = true) :
    (EmailDAO.insert_emails u es db).2 = none := by
  unfold EmailDAO.insert_emails
  rw [if_neg hemp]

theorem processedIds_eq_of_processed_eq (u : String) (db1 db2 : DB)
    (h : db1.processed_emails = db2.processed_emails) :
    EmailDAO.processedIds u db1 = EmailDAO.processedIds u db2 := by
  unfold EmailDAO.processedIds
  rw [h]

/-- C8: `poll_gmail` lists at most the 2 most recent remote messages
(`maxResults=2`), but a successful call returns the Repository's full
unprocessed delta for the user computed on the final state — not the polled
batch: any already-stored unprocessed message outside the batch still occurs
in the result. -/
theorem c8_poll_gmail_backlog (remote : List RemoteMsg) (u sub : String)
    (db db' : DB) (res : List RawEmail)
    (hpoll : poll_gmail remote u sub db = (db', .ok res)) :
    (remote.take 2).length ≤ 2 ∧
      res = EmailDAO.get_unprocessed_emails u db' ∧
      ∀ r ∈ db.raw_emails, r.user_id = u →
        r.gmail_message_id ∉ EmailDAO.processedIds u db →
        (remote.take 2).all (fun m => m.id != r.gmail_message_id) = true →
        res.any (fun x => x.gmail_message_id == r.gmail_message_id) = true := by
  have hlen : (remote.take 2).length ≤ 2 := by
    rw [List.length_take]
    omega
  have hmain : res = EmailDAO.get_unprocessed_emails u db' ∧
      ∀ r ∈ db.raw_emails, r.user_id = u →
        r.gmail_message_id ∉ EmailDAO.processedIds u db →
        (remote.take 2).all (fun m => m.id != r.gmail_message_id) = true →
        r ∈ db'.raw_emails ∧
          EmailDAO.processedIds u db' = EmailDAO.processedIds u db := by
    revert hpoll
    unfold poll_gmail
    cases hmap : (remote.take 2).mapM (buildEmailData sub) with
    | error e =>
      dsimp only
      intro h
      injection h with h1 h2
      cases h2
    | ok es =>
      dsimp only
      have hids : ∀ r : RawEmail,
          (remote.take 2).all (fun m => m.id != r.gmail_message_id) = true →
          ∀ e ∈ es, e.gmail_message_id ≠ r.gmail_message_id := by
        intro r hall e he
        rcases mapM_ok_mem _ _ _ hmap e he with ⟨m, hm, hfm⟩
        rw [buildEmailData_ok_id sub m e hfm]
        have := List.all_eq_true.mp hall m hm
        simpa using this
      by_cases hemp : es.isEmpty = true
      · rw [if_pos hemp]
        intro h
        injection h with h1 h2
        injection h2 with h2
        subst h1
        refine ⟨h2.symm, ?_⟩
        intro r hr hru hnp _
        exact ⟨hr, rfl⟩
      · rw [if_neg hemp]
        cases hins : EmailDAO.insert_emails u es db with
        | mk db1 err =>
          have herr : err = none := by
            have := insert_emails_err_none u es db hemp
            rw [hins] at this
            exact this
          subst herr
          intro h
          injection h with h1 h2
          injection h2 with h2
          constructor
          · rw [h1] at h2
            exact h2.symm
          · intro r hr hru hnp hall
            have hdb1 : db1 = (EmailDAO.insert_emails u es db).1 := by
              rw [hins]
            have hrdb1 : r ∈ db1.raw_emails := by
              rw [hdb1]
              exact mem_insert_emails_raw u es db r hr (hids r hall)
            have hrdb' : r ∈ db'.raw_emails := by
              rw [← h1]
              exact mem_archiveStored_raw u es db1 r hrdb1
                (fun e he => hids r hall e he)
            refine ⟨hrdb', ?_⟩
            rw [← h1]
            rw [processedIds_archiveStored u u es db1]
            rw [hdb1]
            exact processedIds_eq_of_processed_eq u _ db
              (insert_emails_processed u es db)
  refine ⟨hlen, hmain.1, ?_⟩
  intro r hr hru hnp hall
  rcases hmain.2 r hr hru hnp hall with ⟨hrdb', hpid⟩
  have hmem : r ∈ EmailDAO.get_unprocessed_emails u db' := by
    apply (mem_get_unprocessed_iff u db' r).mpr
    refine ⟨hrdb', hru, ?_⟩
    rw [hpid]
    exact hnp
  rw [hmain.1]
  apply List.any_eq_true.mpr
  exact ⟨r, hmem, by simp⟩

def c8raw : RawEmail :=
  { user_id := "u1", gmail_message_id := "m-old", thread_id := "t0"
    subject := "old", body := "b", received_at := 1, archived := false
    google_sub := "g1" }

def c8db : DB :=
  { raw_emails := [c8raw], processed_emails := [], categories := []
    gmail_accounts := [], emails := [] }

def c8remote : List RemoteMsg :=
  [{ id := "m-new", threadId := "t1", headers := [("Subject", "hello")]
     date := 5, payload := none }]

def c8out : DB × Except String (List RawEmail) :=
  poll_gmail c8remote "u1" "g1" c8db

def c8res : List RawEmail :=
  match c8out.2 with
  | .ok l => l
  | .error _ => []

/-- Witness for C8: polling one new remote message returns the stored
backlog message `m-old` as well, via the delta query on the final state. -/
theorem c8_poll_gmail_backlog_witness :
    (c8remote.take 2).length ≤ 2 ∧
      c8res = EmailDAO.get_unprocessed_emails "u1" c8out.1 ∧
      c8res.any (fun x => x.gmail_message_id == "m-old") = true := by
  obtain ⟨h1, h2, h3⟩ :=
    c8_poll_gmail_backlog c8remote "u1" "g1" c8db c8out.1 c8res rfl
  refine ⟨h1, h2, ?_⟩
  exact h3 c8raw (by decide) rfl (by decide) (by decide)

/-! ## Claim C5 — partial-failure isolation in the classification loop -/

theorem any_key_upsertProc (u x : String) (tbl : List ProcessedEmail)
    (row : ProcessedEmail)
    (h : tbl.any (fun p => p.user_id == u && p.gmail_message_id == x) = true) :
    (upsertRow procKey tbl row).any
      (fun p => p.user_id == u && p.gmail_message_id == x) = true := by
  rcases List.any_eq_true.mp h with ⟨w, hw, hpw⟩
  by_cases hk : procKey w = procKey row
  · have h1 : w.user_id = row.user_id := congrArg (fun k => k.1) hk
    have h2 : w.gmail_message_id = row.gmail_message_id :=
      congrArg (fun k => k.2.1) hk
    refine List.any_eq_true.mpr ⟨row, mem_upsertRow_self _ _ _, ?_⟩
    rw [← h1, ← h2]
    exact hpw
  · exact List.any_eq_true.mpr ⟨w, mem_upsertRow_of_ne _ _ _ _ hw hk, hpw⟩

theorem save_raw_eq (u : String) (cat : Categorization) (db : DB) :
    (EmailDAO.save_email_categories u cat db).1.raw_emails =
      db.raw_emails := by
  unfold EmailDAO.save_email_categories
  cases (EmailDAO.get_emails_by_ids u [cat.gmail_message_id] db).head? <;> rfl

theorem save_preserves_any (u x : String) (cat : Categorization) (db : DB)
    (h : db.processed_emails.any
      (fun p => p.user_id == u && p.gmail_message_id == x) = true) :
    (EmailDAO.save_email_categories u cat db).1.processed_emails.any
      (fun p => p.user_id == u && p.gmail_message_id == x) = true := by
  unfold EmailDAO.save_email_categories
  cases (EmailDAO.get_emails_by_ids u [cat.gmail_message_id] db).head? with
  | none => exact h
  | some e => exact any_key_upsertProc u x db.processed_emails _ h

theorem save_ok_of_raw (u : String) (cat : Categorization) (db : DB)
    (hraw : db.raw_emails.any (fun r =>
      r.user_id == u && r.gmail_message_id == cat.gmail_message_id) = true) :
    (EmailDAO.save_email_categories u cat db).2 = none ∧
      (EmailDAO.save_email_categories u cat db).1.processed_emails.any
        (fun p =>
          p.user_id == u && p.gmail_message_id == cat.gmail_message_id) =
        true := by
  have hany : db.raw_emails.any (fun r => r.user_id == u &&
      [cat.gmail_message_id].contains r.gmail_message_id) = true := by
    rcases List.any_eq_true.mp hraw with ⟨w, hw, hpw⟩
    refine List.any_eq_true.mpr ⟨w, hw, ?_⟩
    rw [Bool.and_eq_true] at hpw
    have h2 : w.gmail_message_id = cat.gmail_message_id := by
      simpa using hpw.2
    simp [hpw.1, h2]
  rcases head_filter_of_any _ db.raw_emails hany with ⟨e0, he0, _⟩
  unfold EmailDAO.save_email_categories EmailDAO.get_emails_by_ids
  rw [he0]
  refine ⟨rfl, ?_⟩
  dsimp only
  refine List.any_eq_true.mpr ⟨_, mem_upsertRow_self procKey _ _, ?_⟩
  simp

theorem classifyLoop_preserves_any
    (classify : RawEmail → List Category → Except String ClassOut)
    (cats : List Category) (u x : String) (emails : List RawEmail) (db : DB)
    (h : db.processed_emails.any
      (fun p => p.user_id == u && p.gmail_message_id == x) = true) :
    (classifyLoop classify cats u emails db).1.processed_emails.any
      (fun p => p.user_id == u && p.gmail_message_id == x) = true := by
  induction emails generalizing db with
  | nil => exact h
  | cons e rest ih =>
    rw [classifyLoop]
    cases hce : classify e cats with
    | error err => exact ih db h
    | ok r =>
      dsimp only
      cases hsv : EmailDAO.save_email_categories u
          { gmail_message_id := e.gmail_message_id
            category_id := r.category_id
            summary := r.summary } db with
      | mk db1 errv =>
        have hdb1 : db1.processed_emails.any
            (fun p => p.user_id == u && p.gmail_message_id == x) = true := by
          have hs := save_preserves_any u x
            { gmail_message_id := e.gmail_message_id
              category_id := r.category_id
              summary := r.summary } db h
          rw [hsv] at hs
          exact hs
        cases errv with
        | some msg => exact ih db1 hdb1
        | none =>
          dsimp only
          exact ih db1 hdb1

/-- C5: over any list of messages each backed by a raw row of the user, the
classification loop of `process_emails_background` persists a processed row
for every message the classifier succeeds on, reports a processed count equal
to the number of successes, and — being a total function returning state and
count — lets no exception escape: per-message classification failures are
skipped. -/
theorem c5_partial_failure_isolation
    (classify : RawEmail → List Category → Except String ClassOut)
    (cats : List Category) (u : String) (emails : List RawEmail) (db : DB)
    (hraw : ∀ e ∈ emails, db.raw_emails.any
      (fun r => r.user_id == u &&
        r.gmail_message_id == e.gmail_message_id) = true) :
    (classifyLoop classify cats u emails db).2 =
        emails.countP (fun e => (classify e cats).isOk) ∧
      ∀ e ∈ emails, (classify e cats).isOk = true →
        (classifyLoop classify cats u emails db).1.processed_emails.any
          (fun p => p.user_id == u &&
            p.gmail_message_id == e.gmail_message_id) = true := by
  induction emails generalizing db with
  | nil => exact ⟨rfl, fun e he => absurd he (List.not_mem_nil e)⟩
  | cons e rest ih =>
    have hrest : ∀ x ∈ rest, db.raw_emails.any
        (fun r => r.user_id == u &&
          r.gmail_message_id == x.gmail_message_id) = true :=
      fun x hx => hraw x (List.mem_cons_of_mem e hx)
    rw [classifyLoop]
    cases hce : classify e cats with
    | error err =>
      dsimp only
      obtain ⟨ihc, ihr⟩ := ih db hrest
      refine ⟨?_, ?_⟩
      · rw [ihc, List.countP_cons]
        simp [hce, Except.isOk, Except.toBool]
      · intro x hx hok
        rcases List.mem_cons.mp hx with hx | hx
        · subst hx
          rw [hce] at hok
          cases hok
        · exact ihr x hx hok
    | ok r =>
      dsimp only
      have hsok := save_ok_of_raw u
        { gmail_message_id := e.gmail_message_id
          category_id := r.category_id
          summary := r.summary } db (hraw e (List.mem_cons_self e rest))
      cases hsv : EmailDAO.save_email_categories u
          { gmail_message_id := e.gmail_message_id
            category_id := r.category_id
            summary := r.summary } db with
      | mk db1 errv =>
        rw [hsv] at hsok
        have herrv : errv = none := hsok.1
        subst herrv
        dsimp only
        have hraw1 : db1.raw_emails = db.raw_emails := by
          have hs := save_raw_eq u
            { gmail_message_id := e.gmail_message_id
              category_id := r.category_id
              summary := r.summary } db
          rw [hsv] at hs
          exact hs
        have hrest1 : ∀ x ∈ rest, db1.raw_emails.any
            (fun rr => rr.user_id == u &&
              rr.gmail_message_id == x.gmail_message_id) = true := by
          intro x hx
          rw [hraw1]
          exact hrest x hx
        obtain ⟨ihc, ihr⟩ := ih db1 hrest1
        refine ⟨?_, ?_⟩
        · rw [List.countP_cons]
          simp [hce, ihc, Except.isOk, Except.toBool]
        · intro x hx hok
          rcases List.mem_cons.mp hx with hx | hx
          · subst hx
            exact classifyLoop_preserves_any classify cats u
              x.gmail_message_id rest db1 hsok.2
          · exact ihr x hx hok

def c5raw1 : RawEmail :=
  { user_id := "u", gmail_message_id := "m1", thread_id := "t1"
    subject := "s1", body := "b1", received_at := 3, archived := false
    google_sub := "g" }

def c5raw2 : RawEmail :=
  { user_id := "u", gmail_message_id := "m2", thread_id := "t2"
    subject := "s2", body := "b2", received_at := 2, archived := false
    google_sub := "g" }

def c5raw3 : RawEmail :=
  { user_id := "u", gmail_message_id := "m3", thread_id := "t3"
    subject := "s3", body := "b3", received_at := 1, archived := false
    google_sub := "g" }

def c5db : DB :=
  { raw_emails := [c5raw1, c5raw2, c5raw3], processed_emails := []
    categories := [], gmail_accounts := [], emails := [] }

def c5cats : List Category :=
  [{ user_id := "u", category_id := 1, name := "n", description := none }]

/-- A classifier that fails exactly on message `m2`. -/
def c5classify : RawEmail → List Category → Except String ClassOut :=
  fun e _ =>
    if e.gmail_message_id == "m2" then .error "boom"
    else .ok { category_id := 1, summary := "ok" }

/-- Witness for C5: three messages with the classifier failing on the second
one yield processed rows for messages 1 and 3 and a count of 2. -/
theorem c5_partial_failure_isolation_witness :
    (classifyLoop c5classify c5cats "u" c5db.raw_emails c5db).2 = 2 ∧
      (classifyLoop c5classify c5cats "u" c5db.raw_emails
          c5db).1.processed_emails.any
        (fun p => p.user_id == "u" && p.gmail_message_id == "m1") = true ∧
      (classifyLoop c5classify c5cats "u" c5db.raw_emails
          c5db).1.processed_emails.any
        (fun p => p.user_id == "u" && p.gmail_message_id == "m3") = true := by
  obtain ⟨hc, hr⟩ := c5_partial_failure_isolation c5classify c5cats "u"
    c5db.raw_emails c5db (by decide)
  refine ⟨?_, ?_, ?_⟩
  · rw [hc]; decide
  · exact hr c5raw1 (by decide) (by decide)
  · exact hr c5raw3 (by decide) (by decide)

/-! ## Claim C9 — per-account duplication of the backlog -/

/-- The predicate matching the backlog message of user `u` with message id
`mid`. -/
def midPred (u mid : String) : RawEmail → Bool :=
  fun r => r.user_id == u && r.gmail_message_id == mid

theorem filter_filter_of_imp {α : Type} (p q : α → Bool) (l : List α)
    (h : ∀ r, p r = true → q r = true) :
    (l.filter q).filter p = l.filter p := by
  induction l with
  | nil => rfl
  | cons r rs ih =>
    by_cases hp : p r = true
    · simp [List.filter_cons, h r hp, hp, ih]
    · simp only [Bool.not_eq_true] at hp
      by_cases hq : q r = true
      · simp [List.filter_cons, hq, hp, ih]
      · simp only [Bool.not_eq_true] at hq
        simp [List.filter_cons, hq, hp, ih]

theorem countP_filter_of_imp {α : Type} (p q : α → Bool) (l : List α)
    (h : ∀ r, p r = true → q r = true) :
    (l.filter q).countP p = l.countP p := by
  rw [List.countP_eq_length_filter, List.countP_eq_length_filter,
    filter_filter_of_imp p q l h]

theorem countP_unprocessed (u mid : String) (db : DB)
    (hnp : mid ∉ EmailDAO.processedIds u db) :
    (EmailDAO.get_unprocessed_emails u db).countP (midPred u mid) =
      db.raw_emails.countP (midPred u mid) := by
  unfold EmailDAO.get_unprocessed_emails
  rw [countP_filter_of_imp]
  · rw [sortDescBy_countP]
    apply countP_filter_of_imp
    intro r hr
    unfold midPred at hr
    rw [Bool.and_eq_true] at hr
    exact hr.1
  · intro r hr
    unfold midPred at hr
    rw [Bool.and_eq_true] at hr
    have hid : r.gmail_message_id = mid := by simpa using hr.2
    rw [hid]
    simp [hnp]

theorem filter_foldl_upsert_gen (p : RawEmail → Bool) (rows tbl : List RawEmail)
    (hrow : ∀ row ∈ rows, p row = false)
    (hkey : ∀ row ∈ rows, ∀ r, p r = true → rawKey r ≠ rawKey row) :
    (rows.foldl (upsertRow rawKey) tbl).filter p = tbl.filter p := by
  induction rows generalizing tbl with
  | nil => rfl
  | cons row rest ih =>
    simp only [List.foldl_cons]
    rw [ih (upsertRow rawKey tbl row)
      (fun x hx => hrow x (List.mem_cons_of_mem row hx))
      (fun x hx => hkey x (List.mem_cons_of_mem row hx))]
    exact filter_upsertRow rawKey p tbl row
      (hrow row (List.mem_cons_self row rest))
      (hkey row (List.mem_cons_self row rest))

theorem countP_insert_emails_raw (u0 mid u : String) (es : List EmailData)
    (db : DB) (hne : ∀ e ∈ es, e.gmail_message_id ≠ mid) :
    (EmailDAO.insert_emails u0 es db).1.raw_emails.countP (midPred u mid) =
      db.raw_emails.countP (midPred u mid) := by
  unfold EmailDAO.insert_emails
  by_cases hemp : es.isEmpty = true
  · rw [if_pos hemp]
  · rw [if_neg hemp]
    dsimp only
    rw [List.countP_eq_length_filter, List.countP_eq_length_filter]
    rw [filter_foldl_upsert_gen]
    · intro row hrow
      rcases List.mem_map.mp hrow with ⟨e, he, heq⟩
      unfold midPred
      have : row.gmail_message_id = e.gmail_message_id := by rw [← heq]
      rw [this]
      simp [hne e he]
    · intro row hrow r hr hk
      rcases List.mem_map.mp hrow with ⟨e, he, heq⟩
      have h1 : r.gmail_message_id = row.gmail_message_id :=
        congrArg (fun k => k.2.1) hk
      have h2 : row.gmail_message_id = e.gmail_message_id := by rw [← heq]
      unfold midPred at hr
      rw [Bool.and_eq_true] at hr
      have h3 : r.gmail_message_id = mid := by simpa using hr.2
      exact hne e he (by rw [← h2, ← h1, h3])

theorem countP_mark_as_archived_raw (u0 mid0 u mid : String) (db : DB)
    (hne : mid0 ≠ mid) :
    (EmailDAO.mark_as_archived u0 mid0 db).raw_emails.countP
        (midPred u mid) =
      db.raw_emails.countP (midPred u mid) := by
  unfold EmailDAO.mark_as_archived
  dsimp only
  rw [List.countP_eq_length_filter, List.countP_eq_length_filter]
  apply congrArg List.length
  apply filter_map_update
  · intro a
    unfold midPred
    by_cases hcond : (a.user_id == u0 && a.gmail_message_id == mid0) = true
    · simp [hcond]
    · simp only [Bool.not_eq_true] at hcond
      simp [hcond]
  · intro a ha
    unfold midPred at ha
    rw [Bool.and_eq_true] at ha
    have h3 : a.gmail_message_id = mid := by simpa using ha.2
    rw [if_neg]
    intro hc
    rw [Bool.and_eq_true] at hc
    have h4 : a.gmail_message_id = mid0 := by simpa using hc.2
    exact hne (by rw [← h4, h3])

theorem countP_archiveStored_raw (u0 u mid : String) (es : List EmailData)
    (db : DB) (hne : ∀ e ∈ es, e.gmail_message_id ≠ mid) :
    (archiveStored u0 es db).raw_emails.countP (midPred u mid) =
      db.raw_emails.countP (midPred u mid) := by
  induction es generalizing db with
  | nil => rfl
  | cons e rest ih =>
    simp only [archiveStored, List.foldl_cons]
    rw [show (List.foldl
        (fun d e => EmailDAO.mark_as_archived u0 e.gmail_message_id d)
        (EmailDAO.mark_as_archived u0 e.gmail_message_id db) rest) =
      (archiveStored u0 rest
        (EmailDAO.mark_as_archived u0 e.gmail_message_id db)) from rfl]
    rw [ih (EmailDAO.mark_as_archived u0 e.gmail_message_id db)
      (fun x hx => hne x (List.mem_cons_of_mem e hx))]
    exact countP_mark_as_archived_raw u0 e.gmail_message_id u mid db
      (hne e (List.mem_cons_self e rest))

theorem pollStep_facts (u mid : String) (tok : Option String)
    (remotes : String → List RemoteMsg) (a : GmailAccount)
    (st : DB × List RawEmail)
    (htok : (tokenFor a tok).isSome = true)
    (hok : (((remotes a.google_sub).take 2).mapM
      (buildEmailData a.google_sub)).isOk = true)
    (hnid : ((remotes a.google_sub).take 2).all
      (fun m => m.id != mid) = true) :
    (pollStep u tok remotes st a).1.raw_emails.countP (midPred u mid) =
        st.1.raw_emails.countP (midPred u mid) ∧
      EmailDAO.processedIds u (pollStep u tok remotes st a).1 =
        EmailDAO.processedIds u st.1 ∧
      (pollStep u tok remotes st a).2 =
        st.2 ++ EmailDAO.get_unprocessed_emails u
          (pollStep u tok remotes st a).1 := by
  unfold pollStep
  cases htokc : tokenFor a tok with
  | none => rw [htokc] at htok; cases htok
  | some t =>
    dsimp only
    unfold poll_gmail
    cases hmap : ((remotes a.google_sub).take 2).mapM
        (buildEmailData a.google_sub) with
    | error e =>
      rw [hmap] at hok
      simp [Except.isOk, Except.toBool] at hok
    | ok es =>
      have hids : ∀ e ∈ es, e.gmail_message_id ≠ mid := by
        intro e he
        rcases mapM_ok_mem _ _ _ hmap e he with ⟨m, hm, hfm⟩
        rw [buildEmailData_ok_id _ m e hfm]
        have := List.all_eq_true.mp hnid m hm
        simpa using this
      dsimp only
      by_cases hemp : es.isEmpty = true
      · rw [if_pos hemp]
        dsimp only
        exact ⟨rfl, rfl, rfl⟩
      · rw [if_neg hemp]
        cases hins : EmailDAO.insert_emails u es st.1 with
        | mk db1 errv =>
          have herr : errv = none := by
            have h := insert_emails_err_none u es st.1 hemp
            rw [hins] at h
            exact h
          subst herr
          dsimp only
          have hdb1 : db1 = (EmailDAO.insert_emails u es st.1).1 := by
            rw [hins]
          refine ⟨?_, ?_, rfl⟩
          · rw [countP_archiveStored_raw u u mid es db1 hids, hdb1]
            exact countP_insert_emails_raw u mid u es st.1 hids
          · rw [processedIds_archiveStored u u es db1, hdb1]
            exact processedIds_eq_of_processed_eq u _ st.1
              (insert_emails_processed u es st.1)

theorem pollFold_count (u mid : String) (tok : Option String)
    (remotes : String → List RemoteMsg) (accounts : List GmailAccount)
    (st : DB × List RawEmail)
    (htok : ∀ a ∈ accounts, (tokenFor a tok).isSome = true)
    (hok : ∀ a ∈ accounts, (((remotes a.google_sub).take 2).mapM
      (buildEmailData a.google_sub)).isOk = true)
    (hnid : ∀ a ∈ accounts, ((remotes a.google_sub).take 2).all
      (fun m => m.id != mid) = true)
    (hcount : st.1.raw_emails.countP (midPred u mid) = 1)
    (hnp : mid ∉ EmailDAO.processedIds u st.1) :
    (accounts.foldl (pollStep u tok remotes) st).2.countP (midPred u mid) =
      st.2.countP (midPred u mid) + accounts.length := by
  induction accounts generalizing st with
  | nil => simp
  | cons a rest ih =>
    obtain ⟨f1, f2, f3⟩ := pollStep_facts u mid tok remotes a st
      (htok a (List.mem_cons_self a rest))
      (hok a (List.mem_cons_self a rest))
      (hnid a (List.mem_cons_self a rest))
    simp only [List.foldl_cons]
    rw [ih (pollStep u tok remotes st a)
      (fun x hx => htok x (List.mem_cons_of_mem a hx))
      (fun x hx => hok x (List.mem_cons_of_mem a hx))
      (fun x hx => hnid x (List.mem_cons_of_mem a hx))
      (by rw [f1]; exact hcount)
      (by rw [f2]; exact hnp)]
    rw [f3, List.countP_append]
    rw [countP_unprocessed u mid (pollStep u tok remotes st a).1
      (by rw [f2]; exact hnp)]
    rw [f1, hcount]
    simp only [List.length_cons]
    omega

/-- C9: with k linked accounts (k at least 2) whose polls all succeed (and a
live token for each), the merged list produced by `poll_all_gmail_accounts`
contains the user's backlog message once per account — every per-account poll
returns the whole user-level unprocessed backlog and the results are
concatenated before sorting — so a message with a unique raw row that no
polled batch re-fetches occurs exactly k times. -/
theorem c9_duplicate_backlog_per_account (u mid : String)
    (tok : Option String) (remotes : String → List RemoteMsg) (db : DB)
    (hk : 2 ≤ (db.gmail_accounts.filter (fun a => a.user_id == u)).length)
    (htok : ∀ a ∈ db.gmail_accounts.filter (fun a => a.user_id == u),
      (tokenFor a tok).isSome = true)
    (hok : ∀ a ∈ db.gmail_accounts.filter (fun a => a.user_id == u),
      (((remotes a.google_sub).take 2).mapM
        (buildEmailData a.google_sub)).isOk = true)
    (hnid : ∀ a ∈ db.gmail_accounts.filter (fun a => a.user_id == u),
      ((remotes a.google_sub).take 2).all (fun m => m.id != mid) = true)
    (hcount : db.raw_emails.countP (midPred u mid) = 1)
    (hnp : mid ∉ EmailDAO.processedIds u db) :
    (poll_all_gmail_accounts u tok remotes db).2.countP (midPred u mid) =
      (db.gmail_accounts.filter (fun a => a.user_id == u)).length := by
  unfold poll_all_gmail_accounts
  have hne : ¬ (db.gmail_accounts.filter
      (fun a => a.user_id == u)).isEmpty = true := by
    cases hfl : db.gmail_accounts.filter (fun a => a.user_id == u) with
    | nil => rw [hfl] at hk; simp at hk
    | cons y ys => simp
  rw [if_neg hne]
  dsimp only
  rw [sortDescBy_countP]
  rw [pollFold_count u mid tok remotes _ (db, []) htok hok hnid hcount hnp]
  simp

def c9acc1 : GmailAccount :=
  { user_id := "u", google_sub := "g1", email := "a1@x"
    access_token := "t1", refresh_token := "r1" }

def c9acc2 : GmailAccount :=
  { user_id := "u", google_sub := "g2", email := "a2@x"
    access_token := "t2", refresh_token := "r2" }

def c9raw : RawEmail :=
  { user_id := "u", gmail_message_id := "m1", thread_id := "t1"
    subject := "s", body := "b", received_at := 7, archived := false
    google_sub := "g1" }

def c9db : DB :=
  { raw_emails := [c9raw], processed_emails := [], categories := []
    gmail_accounts := [c9acc1, c9acc2], emails := [] }

def c9remotes : String → List RemoteMsg := fun _ => []

/-- Witness for C9: two linked accounts, one unprocessed backlog message —
the merged list contains it twice. -/
theorem c9_duplicate_backlog_per_account_witness :
    (poll_all_gmail_accounts "u" none c9remotes c9db).2.countP
      (midPred "u" "m1") = 2 := by
  have h := c9_duplicate_backlog_per_account "u" "m1" none c9remotes c9db
    (by decide) (by decide) (by decide) (by decide) (by decide) (by decide)
  rw [h]
  decide
